import Mathlib

/-!
Verification of the minesweeper solvable-board generator
(`generate_solveable_board.ts`), the game manager (`game.ts`) and the
hint index (`hint.ts`).

Modelling conventions:
* JS numbers that are always used as non-negative integers become `Nat`;
  quantities that may go negative (`remaining` differences, the initial
  `bestScore = -1`) become `Int`.
* The 2-D cell arrays become total functions `Nat → Nat → Cell`; every
  access performed by the translated code is at an index the source
  guards with `inBounds` (or that its caller guarantees in bounds), so
  the out-of-range values of the function are never consulted on the
  executions the source exhibits.
* `Math.random()` is modelled by an explicit stream `rng : Nat → Nat`;
  the value `Math.floor(Math.random() * k)` at the `t`-th draw becomes
  `rng t % k`.  Universally quantifying over `rng` covers every possible
  sequence of platform random draws.
* The wall-clock budget of the search loop is modelled by `iters : Nat`,
  the number of `Date.now() - start < timeBudgetMs` checks that pass.
  Since elapsed time is monotone the passing checks form a prefix, so
  every real execution corresponds to some `iters` (0 models
  `timeBudgetMs = 0`).  The loop of the source runs `max 1 iters`
  iterations unless it breaks on a solved board.
* Loops whose termination is data-driven (the flood fill and the
  solver's deduction rounds) take an explicit fuel that dominates the
  bound the source argument gives (each flood pop either consumes a
  queue entry or reveals a new cell; each deduction round that
  progresses grows `revealedCount + flaggedCount`).
-/

set_option maxHeartbeats 1000000

namespace Minesweeper

/-- `Position` from `game.ts`. -/
structure Pos where
  row : Nat
  col : Nat
deriving DecidableEq, Repr

instance : Inhabited Pos := ⟨⟨0, 0⟩⟩

/-- `Cell` from `game.ts`. -/
structure Cell where
  row : Nat
  col : Nat
  isBomb : Bool
  adjacentBombCount : Nat
  revealed : Bool
  flagged : Bool
  revealStep : Option Nat
deriving DecidableEq, Repr

instance : Inhabited Cell := ⟨⟨0, 0, false, 0, false, false, none⟩⟩

/-- `Board` from `game.ts`; the `cells` array becomes a total function. -/
structure Board where
  rows : Nat
  cols : Nat
  cells : Nat → Nat → Cell

/-- The eight neighbour offsets, `DIRECTIONS` in `game.ts`. -/
def DIRECTIONS : List (Int × Int) :=
  [(-1, -1), (-1, 0), (-1, 1), (0, -1), (0, 1), (1, -1), (1, 0), (1, 1)]

/-- `inBounds` from `game.ts`. -/
def inBounds (rows cols : Nat) (row col : Int) : Bool :=
  decide (0 ≤ row) && decide (row < (rows : Int)) &&
    decide (0 ≤ col) && decide (col < (cols : Int))

/-- Neighbour position reached from `(r, c)` by offset `d` (used only
when `inBounds` holds, in which case both coordinates are `≥ 0`). -/
def nbr (r c : Nat) (d : Int × Int) : Pos :=
  ⟨((r : Int) + d.1).toNat, ((c : Int) + d.2).toNat⟩

/-- Whether offset `d` from `(r, c)` stays on a `rows × cols` grid. -/
def nbrIn (rows cols r c : Nat) (d : Int × Int) : Bool :=
  inBounds rows cols ((r : Int) + d.1) ((c : Int) + d.2)

/-- Point update of a cell grid. -/
def updCell (g : Nat → Nat → Cell) (r c : Nat) (f : Cell → Cell) :
    Nat → Nat → Cell :=
  fun r' c' => if r' = r ∧ c' = c then f (g r c) else g r' c'

/-- Point update of a boolean grid. -/
def updG (g : Nat → Nat → Bool) (r c : Nat) (v : Bool) :
    Nat → Nat → Bool :=
  fun r' c' => if r' = r ∧ c' = c then v else g r' c'

/-- `createEmptyBoard` from `generate_solveable_board.ts` / `game.ts`. -/
def createEmptyBoard (rows cols : Nat) : Board :=
  { rows := rows, cols := cols,
    cells := fun r c =>
      { row := r, col := c, isBomb := false, adjacentBombCount := 0,
        revealed := false, flagged := false, revealStep := none } }

/-- Number of in-bounds bomb neighbours of `(r, c)`: the count computed
by the inner loop of `computeAdjacency`. -/
def bombNeighborCount (b : Board) (r c : Nat) : Nat :=
  (DIRECTIONS.filter (fun d =>
    nbrIn b.rows b.cols r c d &&
      (b.cells (nbr r c d).row (nbr r c d).col).isBomb)).length

/-- `computeAdjacency` from `generate_solveable_board.ts`: recompute
`adjacentBombCount` for every in-bounds non-bomb cell. -/
def computeAdjacency (b : Board) : Board :=
  { b with
    cells := fun r c =>
      let cell := b.cells r c
      if r < b.rows ∧ c < b.cols ∧ cell.isBomb = false then
        { cell with adjacentBombCount := bombNeighborCount b r c }
      else cell }

/-- All grid positions in row-major order: the traversal order of the
nested `for` loops of the source. -/
def allPositions (rows cols : Nat) : List Pos :=
  (List.range rows).flatMap (fun r => (List.range cols).map (fun c => ⟨r, c⟩))

/-- `countBombs` from `generate_solveable_board.ts`. -/
def countBombs (b : Board) : Nat :=
  (allPositions b.rows b.cols).foldl
    (fun acc p => if (b.cells p.row p.col).isBomb then acc + 1 else acc) 0

/-! ### Random board generation and mutation -/

/-- `Math.floor(Math.random() * k)`: an arbitrary draw below `k`. -/
def randBelow (rng : Nat → Nat) (t k : Nat) : Nat :=
  if k = 0 then 0 else rng t % k

/-- Mark a cell as a bomb (`board.cells[row][col].isBomb = true`). -/
def setBombTrue (b : Board) (p : Pos) : Board :=
  { b with cells := updCell b.cells p.row p.col (fun c => { c with isBomb := true }) }

/-- Write an arbitrary `isBomb` value at a position. -/
def setBombVal (b : Board) (p : Pos) (v : Bool) : Board :=
  { b with cells := updCell b.cells p.row p.col (fun c => { c with isBomb := v }) }

/-- The candidate list of `generateRandomBoard`: every position except
`safe`, in row-major order. -/
def candidateList (rows cols : Nat) (safe : Pos) : List Pos :=
  (List.range rows).flatMap (fun r =>
    (List.range cols).filterMap (fun c =>
      if r = safe.row ∧ c = safe.col then none else some ⟨r, c⟩))

/-- One Fisher–Yates swap: `[l[i], l[j]] = [l[j], l[i]]`. -/
def swapAt (l : List Pos) (i j : Nat) : List Pos :=
  (l.set i (l.getD j default)).set j (l.getD i default)

/-- The Fisher–Yates loop of `generateRandomBoard`, counting `i` down
from `l.length - 1` to `1`; draw `t = i` picks `j ∈ [0, i]`. -/
def fyLoop (rng : Nat → Nat) : Nat → List Pos → List Pos
  | 0, l => l
  | i + 1, l => fyLoop rng i (swapAt l (i + 1) (randBelow rng (i + 1) (i + 2)))

/-- The shuffle of `generateRandomBoard` (`for i = n-1; i > 0; i--`). -/
def shuffle (rng : Nat → Nat) (l : List Pos) : List Pos :=
  match l.length with
  | 0 => l
  | n + 1 => fyLoop rng n l

/-- `generateRandomBoard` from `generate_solveable_board.ts`. -/
def generateRandomBoard (rows cols bombs : Nat) (safe : Pos)
    (rng : Nat → Nat) : Board :=
  let board := createEmptyBoard rows cols
  let shuffled := shuffle rng (candidateList rows cols safe)
  let board := (shuffled.take bombs).foldl setBombTrue board
  computeAdjacency board

/-- `isInSafeZone` from `generate_solveable_board.ts`. -/
def isInSafeZone (row col : Nat) (safe : Pos) : Bool :=
  decide (((row : Int) - (safe.row : Int)).natAbs ≤ 1) &&
    decide (((col : Int) - (safe.col : Int)).natAbs ≤ 1)

/-- `cloneBombLayout` from `generate_solveable_board.ts`: fresh board
carrying only the parent's in-bounds bomb layout. -/
def cloneBombLayout (parent : Board) : Board :=
  let base := createEmptyBoard parent.rows parent.cols
  { base with
    cells := fun r c =>
      if r < parent.rows ∧ c < parent.cols ∧ (parent.cells r c).isBomb = true then
        { base.cells r c with isBomb := true }
      else base.cells r c }

/-- Positions outside the safe zone, in the traversal order of
`mutateBoard`'s scanning loop. -/
def eligibleList (rows cols : Nat) (safe : Pos) : List Pos :=
  (List.range rows).flatMap (fun r =>
    (List.range cols).filterMap (fun c =>
      if isInSafeZone r c safe then none else some ⟨r, c⟩))

/-- Removal used by `mutateBoard`: overwrite index `i` with the last
element, then pop (`arr[idx] = arr[arr.length - 1]; arr.pop()`). -/
def removeAtSwap (l : List Pos) (i : Nat) : List Pos :=
  (l.set i ((l.getLast?).getD default)).dropLast

/-- State of `mutateBoard`'s swap loop. -/
structure SwapState where
  board : Board
  bombPositions : List Pos
  safePositions : List Pos

/-- The swap loop of `mutateBoard`; iteration `k` uses draws `2*k` and
`2*k + 1`. -/
def swapLoop (rng : Nat → Nat) : Nat → Nat → SwapState → SwapState
  | _, 0, st => st
  | k, n + 1, st =>
    let bombIndex := randBelow rng (2 * k) st.bombPositions.length
    let bombPos := st.bombPositions.getD bombIndex default
    let bombRest := removeAtSwap st.bombPositions bombIndex
    let safeIndex := randBelow rng (2 * k + 1) st.safePositions.length
    let safePos := st.safePositions.getD safeIndex default
    let safeRest := removeAtSwap st.safePositions safeIndex
    let board := setBombVal (setBombVal st.board bombPos false) safePos true
    swapLoop rng (k + 1) n ⟨board, bombRest, safeRest⟩

/-- `mutateBoard` from `generate_solveable_board.ts`.  `swapCount ≤ 0`
becomes `swapCount = 0` under the `Nat` model. -/
def mutateBoard (parent : Board) (safe : Pos) (swapCount : Nat)
    (rng : Nat → Nat) : Option Board :=
  if swapCount = 0 then none
  else
    let board := cloneBombLayout parent
    let eligible := eligibleList board.rows board.cols safe
    let bombPositions := eligible.filter (fun p => (board.cells p.row p.col).isBomb)
    let safePositions := eligible.filter (fun p => !(board.cells p.row p.col).isBomb)
    if bombPositions.length < swapCount ∨ safePositions.length < swapCount then
      none
    else
      some (computeAdjacency
        (swapLoop rng 0 swapCount ⟨board, bombPositions, safePositions⟩).board)

/-! ### The deduction solver -/

/-- `SolverResult` from `generate_solveable_board.ts`. -/
structure SolverResult where
  solved : Bool
  score : Nat
deriving DecidableEq, Repr

/-- The solver's working state: the (read-only) board plus the shadow
`revealed`/`flagged` matrices and the two counters of `runSolver`.  The
board is threaded through every step so that the frame property (the
solver never writes to it) is a statement, not a convention. -/
structure SolverRun where
  board : Board
  revealed : Nat → Nat → Bool
  flagged : Nat → Nat → Bool
  revealedCount : Nat
  flaggedCount : Nat

/-- Fuel that dominates the flood fill: every pop consumes an entry and
pushes at most 8 new ones, and pushes only follow a fresh reveal. -/
def floodFuel (b : Board) : Nat := 9 * (b.rows * b.cols + 1) + 1

/-- The BFS loop of `revealAt`: pop from the front, reveal non-bomb
unflagged cells, expand zero-count cells by pushing unrevealed in-bounds
neighbours to the back. -/
def revealLoop : Nat → List Pos → SolverRun → SolverRun
  | 0, _, st => st
  | _ + 1, [], st => st
  | fuel + 1, cur :: rest, st =>
    if st.revealed cur.row cur.col || st.flagged cur.row cur.col then
      revealLoop fuel rest st
    else if (st.board.cells cur.row cur.col).isBomb then
      revealLoop fuel rest st
    else
      let st' := { st with
        revealed := updG st.revealed cur.row cur.col true,
        revealedCount := st.revealedCount + 1 }
      if (st.board.cells cur.row cur.col).adjacentBombCount ≠ 0 then
        revealLoop fuel rest st'
      else
        let pushes := DIRECTIONS.filterMap (fun d =>
          if nbrIn st.board.rows st.board.cols cur.row cur.col d &&
              !(st'.revealed (nbr cur.row cur.col d).row (nbr cur.row cur.col d).col) then
            some (nbr cur.row cur.col d)
          else none)
        revealLoop fuel (rest ++ pushes) st'

/-- `revealAt` from `generate_solveable_board.ts`. -/
def revealAt (p : Pos) (st : SolverRun) : SolverRun :=
  if st.revealed p.row p.col || st.flagged p.row p.col then st
  else if (st.board.cells p.row p.col).isBomb then st
  else revealLoop (floodFuel st.board) [p] st

/-- `Constraint` from `generate_solveable_board.ts`. -/
structure Constraint where
  unknowns : List Pos
  remaining : Int
deriving DecidableEq, Repr

instance : Inhabited Constraint := ⟨⟨[], 0⟩⟩

/-- The neighbour scan of one revealed cell: count flagged neighbours
and collect unknown (unrevealed, unflagged, in-bounds) neighbours in
direction order. -/
def scanCell (b : Board) (revealed flagged : Nat → Nat → Bool) (r c : Nat) :
    Nat × List Pos :=
  DIRECTIONS.foldl (fun acc d =>
    if nbrIn b.rows b.cols r c d then
      let p := nbr r c d
      if flagged p.row p.col then (acc.1 + 1, acc.2)
      else if !(revealed p.row p.col) then (acc.1, acc.2 ++ [p])
      else acc
    else acc) (0, [])

/-- Result of one scan pass of `runSolver`'s main loop. -/
structure ScanResult where
  toReveal : List Pos
  toFlag : List Pos
  constraints : List Constraint

/-- Record a frontier constraint when its remaining count is not
negative (the `remaining >= 0` push of the scan pass). -/
def scanRes1 (res : ScanResult) (unknowns : List Pos) (remaining : Int) :
    ScanResult :=
  if 0 ≤ remaining then
    { res with constraints := res.constraints ++ [⟨unknowns, remaining⟩] }
  else res

/-- The per-cell body of the scan pass of `runSolver`: skip unrevealed
cells, then apply the saturation and exhaustion rules and record the
frontier constraint. -/
def scanStep (st : SolverRun) (res : ScanResult) (p : Pos) : ScanResult :=
  if !(st.revealed p.row p.col) then res
  else
    let cell := st.board.cells p.row p.col
    let fu := scanCell st.board st.revealed st.flagged p.row p.col
    let flags := fu.1
    let unknowns := fu.2
    if unknowns = [] then res
    else
      let remaining : Int := (cell.adjacentBombCount : Int) - (flags : Int)
      let res1 := scanRes1 res unknowns remaining
      if cell.adjacentBombCount = flags then
        { res1 with toReveal := res1.toReveal ++ unknowns }
      else if cell.adjacentBombCount = flags + unknowns.length then
        { res1 with toFlag := res1.toFlag ++ unknowns }
      else res1

/-- The scan pass of `runSolver`: apply the saturation and exhaustion
rules to every revealed cell and record the frontier constraints. -/
def scanBoard (st : SolverRun) : ScanResult :=
  (allPositions st.board.rows st.board.cols).foldl (scanStep st) ⟨[], [], []⟩

/-- Append a position unless already present: a JS `Map` keyed by the
canonical position string, keeping first-insertion order. -/
def insertPos (l : List Pos) (p : Pos) : List Pos :=
  if p ∈ l then l else l ++ [p]

/-- First-occurrence deduplication: `new Set(list)` of position keys. -/
def keysOf (l : List Pos) : List Pos := l.foldl insertPos []

/-- The per-constraint record built by `applySubsetRule`. -/
structure CSet where
  remaining : Int
  positions : List Pos
  keys : List Pos

instance : Inhabited CSet := ⟨⟨0, [], []⟩⟩

/-- The inner-loop body of `applySubsetRule` for the ordered pair
`(i, j)`. -/
def subsetStep (sets : List CSet) (i : Nat) (acc : List Pos × List Pos)
    (j : Nat) : List Pos × List Pos :=
  if i = j then acc
  else
    let a := sets.getD i default
    let b := sets.getD j default
    if b.keys.length ≤ a.keys.length then acc
    else if !(a.keys.all (fun k => decide (k ∈ b.keys))) then acc
    else
      let diff := b.positions.filter (fun p => !(decide (p ∈ a.keys)))
      if diff = [] then acc
      else
        let remainingDiff := b.remaining - a.remaining
        if remainingDiff < 0 then acc
        else if remainingDiff = 0 then (diff.foldl insertPos acc.1, acc.2)
        else if remainingDiff = (diff.length : Int) then
          (acc.1, diff.foldl insertPos acc.2)
        else acc

/-- The outer-loop body of `applySubsetRule`: skip constraints with an
empty key set, otherwise compare against every other constraint. -/
def subsetOuter (sets : List CSet) (acc : List Pos × List Pos) (i : Nat) :
    List Pos × List Pos :=
  if (sets.getD i default).keys.length = 0 then acc
  else (List.range sets.length).foldl (subsetStep sets i) acc

/-- The list of per-constraint records of `applySubsetRule`. -/
def toCSets (constraints : List Constraint) : List CSet :=
  constraints.map (fun c => CSet.mk c.remaining c.unknowns (keysOf c.unknowns))

/-- `applySubsetRule` from `generate_solveable_board.ts`: returns the
(safe, bombs) deductions from all strict-subset constraint pairs. -/
def applySubsetRule (constraints : List Constraint) : List Pos × List Pos :=
  let sets := toCSets constraints
  (List.range sets.length).foldl (subsetOuter sets) ([], [])

/-- Apply queued flags: skip cells already flagged or revealed, flag the
rest, reporting progress. -/
def applyFlags (toFlag : List Pos) (s : SolverRun × Bool) : SolverRun × Bool :=
  toFlag.foldl (fun acc p =>
    if acc.1.flagged p.row p.col || acc.1.revealed p.row p.col then acc
    else
      ({ acc.1 with
          flagged := updG acc.1.flagged p.row p.col true,
          flaggedCount := acc.1.flaggedCount + 1 }, true)) s

/-- Apply queued reveals through `revealAt`, reporting progress when a
call reveals at least one new cell. -/
def applyReveals (toReveal : List Pos) (s : SolverRun × Bool) : SolverRun × Bool :=
  toReveal.foldl (fun acc p =>
    let st' := revealAt p acc.1
    (st', acc.2 || decide (acc.1.revealedCount < st'.revealedCount))) s

/-- One iteration of `runSolver`'s `while (progress)` loop. -/
def solverRound (st : SolverRun) : SolverRun × Bool :=
  let scan := scanBoard st
  let acts :=
    if scan.toReveal = [] ∧ scan.toFlag = [] ∧ 1 < scan.constraints.length then
      let subset := applySubsetRule scan.constraints
      (scan.toReveal ++ subset.1, scan.toFlag ++ subset.2)
    else (scan.toReveal, scan.toFlag)
  applyReveals acts.1 (applyFlags acts.2 (st, false))

/-- The deduction loop: repeat rounds while they make progress.  A
round that makes no progress leaves the state unchanged, so fuel beyond
the progress bound is harmless. -/
def solverLoop : Nat → SolverRun → SolverRun
  | 0, st => st
  | fuel + 1, st =>
    let r := solverRound st
    if r.2 then solverLoop fuel r.1 else r.1

/-- Fuel dominating the number of progressing rounds: each one grows
`revealedCount + flaggedCount`, which is bounded by the grid size. -/
def solverFuel (b : Board) : Nat := 2 * (b.rows * b.cols) + 3

/-- The fresh solver state for a board (both shadow matrices false). -/
def initSolverRun (b : Board) : SolverRun :=
  ⟨b, fun _ _ => false, fun _ _ => false, 0, 0⟩

/-- The final solver state of `runSolver board safe`: seed reveal at
`safe`, then deduction rounds to quiescence. -/
def runSolverState (b : Board) (safe : Pos) : SolverRun :=
  solverLoop (solverFuel b) (revealAt safe (initSolverRun b))

/-- `totalSafe` of `runSolver`. -/
def totalSafe (b : Board) : Nat := b.rows * b.cols - countBombs b

/-- `runSolver` from `generate_solveable_board.ts`. -/
def runSolver (b : Board) (safe : Pos) : SolverResult :=
  let st := runSolverState b safe
  ⟨decide (totalSafe b ≤ st.revealedCount), st.revealedCount + st.flaggedCount⟩

/-! ### The search orchestrator (`generateSolvableBoard`) -/

/-- The orchestrator's bookkeeping, one field per local of
`generateSolvableBoard`.  `bestScore` starts at `-1`, hence `Int`. -/
structure SearchState where
  attempts : Nat
  noImproveCount : Nat
  parentBoard : Option Board
  bestBoard : Option Board
  bestScore : Int
  bestScoreAttempt : Nat
  lastBoard : Option Board
  lastSafeBoard : Option Board
  solvedBoard : Option Board
  solvedScore : Nat
  solvedAttempt : Nat

/-- The locals of `generateSolvableBoard` before the first iteration. -/
def initSearchState : SearchState :=
  ⟨0, 0, none, none, -1, 0, none, none, none, 0, 0⟩

/-- The per-iteration swap count:
`Math.max(1, Math.ceil(bombs * pct / 100))` (the percent is already
normalised to be non-negative under the `Nat` model). -/
def swapCountOf (bombs pct : Nat) : Nat :=
  max 1 ((bombs * pct + 99) / 100)

/-- Candidate production of one iteration:
`parent ? (mutateBoard(...) ?? generateRandomBoard(...)) : generateRandomBoard(...)`. -/
def candidateOf (rows cols bombs : Nat) (safe : Pos) (swapCount : Nat)
    (parent : Option Board) (rngM rngG : Nat → Nat) : Board :=
  match parent with
  | some p => (mutateBoard p safe swapCount rngM).getD
      (generateRandomBoard rows cols bombs safe rngG)
  | none => generateRandomBoard rows cols bombs safe rngG

/-- One iteration of the sampling loop of `generateSolvableBoard`. -/
def searchIter (rows cols bombs : Nat) (safe : Pos) (pct patience : Nat)
    (rngM rngG : Nat → Nat) (st : SearchState) : SearchState :=
  let st := { st with attempts := st.attempts + 1 }
  let st :=
    if st.parentBoard.isSome ∧ patience ≤ st.noImproveCount then
      { st with parentBoard := none, noImproveCount := 0 }
    else st
  let board := candidateOf rows cols bombs safe (swapCountOf bombs pct)
    st.parentBoard rngM rngG
  let st := { st with lastBoard := some board }
  if (board.cells safe.row safe.col).adjacentBombCount ≠ 0 then st
  else
    let st := { st with lastSafeBoard := some board }
    let result := runSolver board safe
    if result.solved then
      { st with
        solvedBoard := some board
        solvedScore := result.score
        solvedAttempt := st.attempts }
    else if st.bestScore < (result.score : Int) then
      { st with
        bestScore := (result.score : Int)
        bestScoreAttempt := st.attempts
        bestBoard := some board
        parentBoard := some board
        noImproveCount := 0 }
    else { st with noImproveCount := st.noImproveCount + 1 }

/-- The sampling loop, running at most `n` further iterations and
breaking as soon as an iteration finds a solved board.  Iteration `k`
draws its randomness from streams `2k` and `2k + 1` of the family. -/
def searchLoop (rows cols bombs : Nat) (safe : Pos) (pct patience : Nat)
    (rngFam : Nat → Nat → Nat) : Nat → SearchState → SearchState
  | 0, st => st
  | n + 1, st =>
    let st' := searchIter rows cols bombs safe pct patience
      (rngFam (2 * st.attempts)) (rngFam (2 * st.attempts + 1)) st
    if st'.solvedBoard.isSome then st'
    else searchLoop rows cols bombs safe pct patience rngFam n st'

/-- The selection chain
`solvedBoard ?? bestBoard ?? lastSafeBoard ?? lastBoard`. -/
def selectBoard (st : SearchState) : Option Board :=
  match st.solvedBoard with
  | some b => some b
  | none =>
    match st.bestBoard with
    | some b => some b
    | none =>
      match st.lastSafeBoard with
      | some b => some b
      | none => st.lastBoard

/-- `generateSolvableBoard` from `generate_solveable_board.ts`.  `iters`
is the number of wall-clock checks that pass (0 models
`timeBudgetMs = 0`); the `attempts === 0 ||` disjunct forces at least
one iteration, hence `max 1 iters`.  The final `generateRandomBoard`
mirrors the unconditional fallback after the selection chain. -/
def generateSolvableBoard (rows cols bombs : Nat) (safe : Pos)
    (pct patience : Nat) (rngFam : Nat → Nat → Nat) (iters : Nat) : Board :=
  let st := searchLoop rows cols bombs safe pct patience rngFam
    (max 1 iters) initSearchState
  match selectBoard st with
  | some b => b
  | none => generateRandomBoard rows cols bombs safe (rngFam (2 * st.attempts + 1))

/-! ### The hint index (`hint.ts`) -/

/-- JS `Set.delete` on the canonical-key set, keeping insertion order
(`keyFor` is injective, so the set of keys is a set of positions). -/
def edgeDelete (l : List Pos) (p : Pos) : List Pos :=
  l.filter (fun q => !(decide (q = p)))

/-- The edge-candidate predicate of `hint.ts`: unrevealed, unflagged and
non-empty (a bomb or a positive adjacency count). -/
def edgeQualifies (b : Board) (p : Pos) : Bool :=
  let cell := b.cells p.row p.col
  !cell.revealed && !cell.flagged &&
    (cell.isBomb || decide (0 < cell.adjacentBombCount))

/-- `HintManager.updateFromReveal` from `hint.ts`. -/
def updateFromReveal (board : Board) (edges : List Pos)
    (revealedList : List Pos) : List Pos :=
  if revealedList = [] then edges
  else
    revealedList.foldl (fun acc pos =>
      let acc := edgeDelete acc pos
      DIRECTIONS.foldl (fun acc2 d =>
        if nbrIn board.rows board.cols pos.row pos.col d then
          let q := nbr pos.row pos.col d
          if edgeQualifies board q then insertPos acc2 q else acc2
        else acc2) acc) edges

/-! ### The game manager (`game.ts`) -/

/-- The outcome tag of `GameManager.reveal`. -/
inductive Outcome where
  | bomb
  | revealedOutcome
  | ignored
deriving DecidableEq, Repr

/-- The private state of a `GameManager` (constructor arguments plus
the mutable fields, including the hint manager's candidate set). -/
structure GMState where
  rows : Nat
  cols : Nat
  bombCount : Nat
  board : Board
  flagsPlaced : Nat
  hasStarted : Bool
  edgeCandidates : List Pos

/-- The flood-fill loop of `revealCellInternal` (queue entries carry
the animation distance). -/
def rciLoop : Nat → List (Pos × Nat) → Board → List Pos → Board × List Pos
  | 0, _, b, acc => (b, acc)
  | _ + 1, [], b, acc => (b, acc)
  | fuel + 1, (p, dist) :: rest, b, acc =>
    let cell := b.cells p.row p.col
    if cell.revealed || cell.flagged then rciLoop fuel rest b acc
    else
      let cells' := updCell b.cells p.row p.col
        (fun c => { c with revealed := true, revealStep := some dist })
      let b' := { b with cells := cells' }
      let acc' := acc ++ [p]
      if cell.adjacentBombCount ≠ 0 then rciLoop fuel rest b' acc'
      else
        let pushes := DIRECTIONS.filterMap (fun d =>
          if nbrIn b'.rows b'.cols p.row p.col d then
            let q := nbr p.row p.col d
            let ncell := b'.cells q.row q.col
            if !ncell.revealed && !ncell.flagged && !ncell.isBomb then
              some (q, dist + 1)
            else none
          else none)
        rciLoop fuel (rest ++ pushes) b' acc'

/-- `GameManager.revealCellInternal` from `game.ts` (the clone of the
source is the value copy implicit in the functional model). -/
def revealCellInternal (board : Board) (row col : Nat) : Board × List Pos :=
  let start := board.cells row col
  let cells' := updCell board.cells row col
    (fun c => { c with revealed := true, revealStep := some 0 })
  if start.revealed || start.flagged then (board, [])
  else if start.isBomb then ({ board with cells := cells' }, [⟨row, col⟩])
  else if 0 < start.adjacentBombCount then
    ({ board with cells := cells' }, [⟨row, col⟩])
  else rciLoop (floodFuel board) [(⟨row, col⟩, 0)] board []

/-- `GameManager.applyExistingFlags`: copy pre-generation flags onto the
generated board (indexing by the stored `row`/`col` cell fields, as the
source does). -/
def applyExistingFlags (old next : Board) : Board :=
  (allPositions old.rows old.cols).foldl (fun nb p =>
    let cell := old.cells p.row p.col
    if cell.flagged then
      let cells' := updCell nb.cells cell.row cell.col
        (fun c => { c with flagged := true })
      { nb with cells := cells' }
    else nb) next

/-- `GameManager.generateFirstBoard` (the debug flag only logs and is
dropped; option defaults `mutationSwapPercent = 3`,
`mutationPatience = 100`). -/
def generateFirstBoard (s : GMState) (safe : Pos)
    (rngFam : Nat → Nat → Nat) (iters : Nat) : GMState :=
  let generated := generateSolvableBoard s.rows s.cols s.bombCount safe
    3 100 rngFam iters
  { s with board := applyExistingFlags s.board generated }

/-- `GameManager.reveal` from `game.ts`. -/
def reveal (s : GMState) (row col : Nat) (rngFam : Nat → Nat → Nat)
    (iters : Nat) : (Outcome × List Pos) × GMState :=
  let s :=
    if s.hasStarted then s
    else { generateFirstBoard s ⟨row, col⟩ rngFam iters with hasStarted := true }
  let cell := s.board.cells row col
  if cell.revealed || cell.flagged then ((.ignored, []), s)
  else if cell.isBomb then ((.bomb, []), s)
  else
    let rl := revealCellInternal s.board row col
    let s := { s with
      board := rl.1
      edgeCandidates := updateFromReveal rl.1 s.edgeCandidates rl.2 }
    ((.revealedOutcome, rl.2), s)

/-! ### Claim-specific definitions -/

/-- A 5×5 board with a single bomb at `p`, play fields fresh and
adjacency computed: the boards of the C2 scenario. -/
def singleBomb5 (p : Pos) : Board :=
  computeAdjacency (setBombTrue (createEmptyBoard 5 5) p)

/-- Every in-bounds non-bomb cell stores its true 8-neighbour bomb
count. -/
def adjacencyCorrect (b : Board) : Prop :=
  ∀ r < b.rows, ∀ c < b.cols, (b.cells r c).isBomb = false →
    (b.cells r c).adjacentBombCount = bombNeighborCount b r c

instance (b : Board) : Decidable (adjacencyCorrect b) := by
  unfold adjacencyCorrect; infer_instance

/-- The number of bomb cells of `b` outside the safe zone of `safe`. -/
def bombsOutside (b : Board) (safe : Pos) : Nat :=
  ((eligibleList b.rows b.cols safe).filter
    (fun p => (b.cells p.row p.col).isBomb)).length

/-- The number of non-bomb cells of `b` outside the safe zone. -/
def safesOutside (b : Board) (safe : Pos) : Nat :=
  ((eligibleList b.rows b.cols safe).filter
    (fun p => !(b.cells p.row p.col).isBomb)).length

/-- The spec's subset relation between two constraints: `A`'s unknown
set is a strict subset of `B`'s. -/
def strictSubsetU (a b : Constraint) : Prop :=
  (∀ p ∈ a.unknowns, p ∈ b.unknowns) ∧ ∃ p ∈ b.unknowns, p ∉ a.unknowns

/-- The spec's characterisation of a provably safe cell: some ordered
pair `(A, B)` with `A ⊊ B` and `B.remaining - A.remaining = 0` has the
cell in its difference. -/
def SafeChar (cs : List Constraint) (p : Pos) : Prop :=
  ∃ a ∈ cs, ∃ b ∈ cs, strictSubsetU a b ∧ b.remaining - a.remaining = 0 ∧
    p ∈ b.unknowns ∧ p ∉ a.unknowns

/-- The spec's characterisation of a provably-bomb cell: some ordered
pair `(A, B)` with `A ⊊ B` whose remaining difference equals the size of
the difference has the cell in its difference. -/
def BombChar (cs : List Constraint) (p : Pos) : Prop :=
  ∃ a ∈ cs, ∃ b ∈ cs, strictSubsetU a b ∧
    b.remaining - a.remaining =
      ((b.unknowns.filter (fun q => !(decide (q ∈ a.unknowns)))).length : Int) ∧
    p ∈ b.unknowns ∧ p ∉ a.unknowns

/-- A started 1×1 game whose only cell is an unrevealed, unflagged
bomb (used to instantiate the bomb-reveal theorem). -/
def c10State : GMState :=
  { rows := 1, cols := 1, bombCount := 1,
    board :=
      { rows := 1, cols := 1,
        cells := fun r c =>
          { row := r, col := c, isBomb := true, adjacentBombCount := 0,
            revealed := false, flagged := false, revealStep := none } },
    flagsPlaced := 0, hasStarted := true, edgeCandidates := [] }

/-- The code-level conditions under which the ordered index pair
`(i, j)` contributes `p` to the safe output of `applySubsetRule`. -/
def stepSafe (sets : List CSet) (i j : Nat) (p : Pos) : Prop :=
  i ≠ j ∧
  (sets.getD i default).keys.length < (sets.getD j default).keys.length ∧
  (∀ k ∈ (sets.getD i default).keys, k ∈ (sets.getD j default).keys) ∧
  (sets.getD j default).remaining - (sets.getD i default).remaining = 0 ∧
  p ∈ (sets.getD j default).positions ∧ p ∉ (sets.getD i default).keys

/-- The code-level conditions under which the ordered index pair
`(i, j)` contributes `p` to the bombs output of `applySubsetRule`. -/
def stepBomb (sets : List CSet) (i j : Nat) (p : Pos) : Prop :=
  i ≠ j ∧
  (sets.getD i default).keys.length < (sets.getD j default).keys.length ∧
  (∀ k ∈ (sets.getD i default).keys, k ∈ (sets.getD j default).keys) ∧
  (sets.getD j default).remaining - (sets.getD i default).remaining =
    (((sets.getD j default).positions.filter
      (fun q => !(decide (q ∈ (sets.getD i default).keys)))).length : Int) ∧
  p ∈ (sets.getD j default).positions ∧ p ∉ (sets.getD i default).keys

/-- Invariant of `mutateBoard`'s swap loop: the working board keeps the
parent's dimensions and bomb count, the two position pools are disjoint
without duplicates, every pooled position is in bounds, outside the safe
zone and of the advertised bomb status, and the safe zone still carries
the cloned layout. -/
structure SwapInv (parent : Board) (safe : Pos) (st : SwapState) : Prop where
  rows_eq : st.board.rows = parent.rows
  cols_eq : st.board.cols = parent.cols
  count_eq : countBombs st.board = countBombs parent
  pools_nodup : (st.bombPositions ++ st.safePositions).Nodup
  bombs_are : ∀ p ∈ st.bombPositions, p.row < st.board.rows ∧ p.col < st.board.cols ∧
    (st.board.cells p.row p.col).isBomb = true ∧ isInSafeZone p.row p.col safe = false
  safes_are : ∀ p ∈ st.safePositions, p.row < st.board.rows ∧ p.col < st.board.cols ∧
    (st.board.cells p.row p.col).isBomb = false ∧ isInSafeZone p.row p.col safe = false
  zone_frame : ∀ r c, isInSafeZone r c safe = true →
    st.board.cells r c = (cloneBombLayout parent).cells r c

/-! ## Theorems -/

/-- Soundness of the solver's shadow matrices relative to its own
board: every cell marked revealed is a non-bomb and every cell marked
flagged is a bomb. -/
def SolverSound (st : SolverRun) : Prop :=
  (∀ r c, st.revealed r c = true → (st.board.cells r c).isBomb = false) ∧
  (∀ r c, st.flagged r c = true → (st.board.cells r c).isBomb = true)

/-- Semantic correctness of a frontier constraint against a board: a
non-empty, duplicate-free unknown list whose `remaining` field counts
exactly the bombs among the unknowns. -/
def ConstraintSem (b : Board) (co : Constraint) : Prop :=
  co.unknowns ≠ [] ∧ co.unknowns.Nodup ∧
    co.remaining = (co.unknowns.countP
      (fun p => (b.cells p.row p.col).isBomb) : Int)

/-! ### C9: the solver never writes to the input board -/

lemma revealLoop_board (fuel : Nat) :
    ∀ (queue : List Pos) (st : SolverRun), (revealLoop fuel queue st).board = st.board := by
  induction fuel with
  | zero => intro queue st; rfl
  | succ n ih =>
    intro queue st
    cases queue with
    | nil => rfl
    | cons cur rest =>
      simp only [revealLoop]
      split
      · exact ih _ _
      · split
        · exact ih _ _
        · split
          · exact ih _ _
          · exact ih _ _

lemma revealAt_board (p : Pos) (st : SolverRun) :
    (revealAt p st).board = st.board := by
  unfold revealAt
  split
  · rfl
  · split
    · rfl
    · exact revealLoop_board _ _ _

lemma applyFlags_board (l : List Pos) :
    ∀ s : SolverRun × Bool, (applyFlags l s).1.board = s.1.board := by
  induction l with
  | nil => intro s; rfl
  | cons p rest ih =>
    intro s
    show (applyFlags rest _).1.board = _
    rw [ih]
    dsimp only
    split <;> rfl

lemma applyReveals_board (l : List Pos) :
    ∀ s : SolverRun × Bool, (applyReveals l s).1.board = s.1.board := by
  induction l with
  | nil => intro s; rfl
  | cons p rest ih =>
    intro s
    show (applyReveals rest _).1.board = _
    rw [ih]
    dsimp only
    exact revealAt_board _ _

lemma solverRound_board (st : SolverRun) : (solverRound st).1.board = st.board := by
  unfold solverRound
  rw [applyReveals_board, applyFlags_board]

lemma solverLoop_board (fuel : Nat) :
    ∀ st : SolverRun, (solverLoop fuel st).board = st.board := by
  induction fuel with
  | zero => intro st; rfl
  | succ n ih =>
    intro st
    show (if (solverRound st).2 then solverLoop n (solverRound st).1 else (solverRound st).1).board = st.board
    split
    · rw [ih, solverRound_board]
    · exact solverRound_board st

/-- C9: `runSolver` leaves the input board completely unchanged — the
final solver state still carries the very board value it was given, so
every cell's `isBomb`, `adjacentBombCount`, `revealed`, `flagged` and
`revealStep` fields are those of the input; all progress lives in the
solver-private shadow matrices. -/
theorem c9_solver_frame (b : Board) (safe : Pos) :
    (runSolverState b safe).board = b := by
  unfold runSolverState
  rw [solverLoop_board, revealAt_board]
  rfl

/-! ### C2: the trivial 5×5 single-bomb scenario -/

/-- C2 (counterexample): the generator-shaped 5×5 board with its single
bomb at the corner `(0,0)` — outside the safe zone of the centre and
with correct adjacency counts — is solved, but with score 25, not 24
(the solver flags the bomb, and the score counts reveals plus flags). -/
theorem c2_counterexample :
    (singleBomb5 ⟨0, 0⟩).rows = 5 ∧ (singleBomb5 ⟨0, 0⟩).cols = 5 ∧
    adjacencyCorrect (singleBomb5 ⟨0, 0⟩) ∧
    isInSafeZone 0 0 ⟨2, 2⟩ = false ∧
    (∀ r < 5, ∀ c < 5,
      ((singleBomb5 ⟨0, 0⟩).cells r c).isBomb = true ↔ (r = 0 ∧ c = 0)) ∧
    runSolver (singleBomb5 ⟨0, 0⟩) ⟨2, 2⟩ ≠ ⟨true, 24⟩ := by
  decide

/-- C2 (amended): on a 5×5 board with exactly one bomb outside the 3×3
safe zone of the centre and correct adjacency counts, the solver run
from the centre reports `solved = true` with score 25 (24 deduced
reveals plus the deduced flag on the bomb), not 24. -/
theorem c2_solver_trivial_board :
    ∀ r < 5, ∀ c < 5, isInSafeZone r c ⟨2, 2⟩ = false →
      runSolver (singleBomb5 ⟨r, c⟩) ⟨2, 2⟩ = ⟨true, 25⟩ := by
  decide

theorem c2_solver_trivial_board_witness :
    (0 : Nat) < 5 ∧ isInSafeZone 0 0 ⟨2, 2⟩ = false ∧
      runSolver (singleBomb5 ⟨0, 0⟩) ⟨2, 2⟩ = ⟨true, 25⟩ :=
  ⟨by decide, by decide,
    c2_solver_trivial_board 0 (by decide) 0 (by decide) (by decide)⟩

/-! ### C10: revealing a bomb in a started game changes nothing -/

/-- C10: in a started game, revealing an unrevealed, unflagged bomb
cell returns outcome `bomb` with an empty revealed list and leaves the
entire game state (board, flag count, hint candidates, started flag)
unchanged. -/
theorem c10_reveal_bomb_no_mutation (s : GMState) (row col : Nat)
    (rngFam : Nat → Nat → Nat) (iters : Nat)
    (hs : s.hasStarted = true)
    (hb : (s.board.cells row col).isBomb = true)
    (hr : (s.board.cells row col).revealed = false)
    (hf : (s.board.cells row col).flagged = false) :
    reveal s row col rngFam iters = ((.bomb, []), s) := by
  unfold reveal
  simp [hs, hb, hr, hf]

theorem c10_reveal_bomb_no_mutation_witness :
    c10State.hasStarted = true ∧
    (c10State.board.cells 0 0).isBomb = true ∧
    (c10State.board.cells 0 0).revealed = false ∧
    (c10State.board.cells 0 0).flagged = false ∧
    reveal c10State 0 0 (fun _ _ => 0) 0 = ((.bomb, []), c10State) :=
  ⟨rfl, rfl, rfl, rfl,
    c10_reveal_bomb_no_mutation c10State 0 0 (fun _ _ => 0) 0 rfl rfl rfl rfl⟩

/-! ### C6: the orchestrator always selects a board -/

lemma searchIter_attempts (rows cols bombs : Nat) (safe : Pos)
    (pct patience : Nat) (rngM rngG : Nat → Nat) (st : SearchState) :
    (searchIter rows cols bombs safe pct patience rngM rngG st).attempts =
      st.attempts + 1 := by
  unfold searchIter
  dsimp only
  repeat' split
  all_goals rfl

lemma searchIter_lastBoard (rows cols bombs : Nat) (safe : Pos)
    (pct patience : Nat) (rngM rngG : Nat → Nat) (st : SearchState) :
    (searchIter rows cols bombs safe pct patience rngM rngG st).lastBoard.isSome = true := by
  unfold searchIter
  dsimp only
  repeat' split
  all_goals rfl

lemma searchLoop_succ (rows cols bombs : Nat) (safe : Pos)
    (pct patience : Nat) (rngFam : Nat → Nat → Nat) (m : Nat) (st : SearchState) :
    searchLoop rows cols bombs safe pct patience rngFam (m + 1) st =
      if (searchIter rows cols bombs safe pct patience (rngFam (2 * st.attempts))
            (rngFam (2 * st.attempts + 1)) st).solvedBoard.isSome = true then
        searchIter rows cols bombs safe pct patience (rngFam (2 * st.attempts))
          (rngFam (2 * st.attempts + 1)) st
      else
        searchLoop rows cols bombs safe pct patience rngFam m
          (searchIter rows cols bombs safe pct patience (rngFam (2 * st.attempts))
            (rngFam (2 * st.attempts + 1)) st) := rfl

lemma searchLoop_keeps (rows cols bombs : Nat) (safe : Pos)
    (pct patience : Nat) (rngFam : Nat → Nat → Nat) (n : Nat) :
    ∀ st : SearchState, 1 ≤ st.attempts → st.lastBoard.isSome = true →
      1 ≤ (searchLoop rows cols bombs safe pct patience rngFam n st).attempts ∧
        (searchLoop rows cols bombs safe pct patience rngFam n st).lastBoard.isSome = true := by
  induction n with
  | zero => intro st h1 h2; exact ⟨h1, h2⟩
  | succ m ih =>
    intro st h1 h2
    rw [searchLoop_succ]
    have ha := searchIter_attempts rows cols bombs safe pct patience
      (rngFam (2 * st.attempts)) (rngFam (2 * st.attempts + 1)) st
    have hl := searchIter_lastBoard rows cols bombs safe pct patience
      (rngFam (2 * st.attempts)) (rngFam (2 * st.attempts + 1)) st
    split
    · exact ⟨by omega, hl⟩
    · exact ih _ (by omega) hl

lemma selectBoard_isSome (st : SearchState) (h : st.lastBoard.isSome = true) :
    ∃ b, selectBoard st = some b ∧
      (st.solvedBoard = some b ∨ st.bestBoard = some b ∨
        st.lastSafeBoard = some b ∨ st.lastBoard = some b) := by
  unfold selectBoard
  cases hs : st.solvedBoard with
  | some b => exact ⟨b, rfl, Or.inl rfl⟩
  | none =>
    cases hb : st.bestBoard with
    | some b => exact ⟨b, rfl, Or.inr (Or.inl rfl)⟩
    | none =>
      cases hf : st.lastSafeBoard with
      | some b => exact ⟨b, rfl, Or.inr (Or.inr (Or.inl rfl))⟩
      | none =>
        cases hl : st.lastBoard with
        | some b => exact ⟨b, rfl, Or.inr (Or.inr (Or.inr rfl))⟩
        | none => rw [hl] at h; cases h

/-- C6: the sampling loop always runs at least one full iteration
(`attempts ≥ 1`), always records a candidate (`lastBoard` is set), and
`generateSolvableBoard` returns a board drawn from its selection chain
— one of `solvedBoard`, `bestBoard`, `lastSafeBoard` or `lastBoard` —
for every input, including `iters = 0` (a zero time budget).  In
particular the function always returns a board and the unconditional
last-resort branch after the selection chain is never reached. -/
theorem c6_generator_total (rows cols bombs : Nat) (safe : Pos)
    (pct patience : Nat) (rngFam : Nat → Nat → Nat) (iters : Nat) :
    1 ≤ (searchLoop rows cols bombs safe pct patience rngFam (max 1 iters)
          initSearchState).attempts ∧
    ∃ b,
      ((searchLoop rows cols bombs safe pct patience rngFam (max 1 iters)
          initSearchState).solvedBoard = some b ∨
       (searchLoop rows cols bombs safe pct patience rngFam (max 1 iters)
          initSearchState).bestBoard = some b ∨
       (searchLoop rows cols bombs safe pct patience rngFam (max 1 iters)
          initSearchState).lastSafeBoard = some b ∨
       (searchLoop rows cols bombs safe pct patience rngFam (max 1 iters)
          initSearchState).lastBoard = some b) ∧
      generateSolvableBoard rows cols bombs safe pct patience rngFam iters = b := by
  have hmax : ∃ k, max 1 iters = k + 1 := by
    refine ⟨max 1 iters - 1, ?_⟩
    omega
  obtain ⟨k, hk⟩ := hmax
  have hbase :
      1 ≤ (searchLoop rows cols bombs safe pct patience rngFam (max 1 iters)
            initSearchState).attempts ∧
      (searchLoop rows cols bombs safe pct patience rngFam (max 1 iters)
            initSearchState).lastBoard.isSome = true := by
    rw [hk, searchLoop_succ]
    have ha := searchIter_attempts rows cols bombs safe pct patience
      (rngFam (2 * initSearchState.attempts)) (rngFam (2 * initSearchState.attempts + 1))
      initSearchState
    have hl := searchIter_lastBoard rows cols bombs safe pct patience
      (rngFam (2 * initSearchState.attempts)) (rngFam (2 * initSearchState.attempts + 1))
      initSearchState
    split
    · exact ⟨by omega, hl⟩
    · exact searchLoop_keeps rows cols bombs safe pct patience rngFam k _ (by omega) hl
  obtain ⟨hatt, hlast⟩ := hbase
  obtain ⟨b, hsel, hdisj⟩ := selectBoard_isSome _ hlast
  refine ⟨hatt, b, hdisj, ?_⟩
  unfold generateSolvableBoard
  simp only [hsel]

/-! ### C1: which selection branches guarantee a zero-adjacency anchor -/

/-- The returned board opens a zero region at the anchor. -/
def anchorZero (safe : Pos) (b : Board) : Prop :=
  (b.cells safe.row safe.col).adjacentBombCount = 0

/-- Invariant of the sampling loop: every board stored in
`solvedBoard`, `bestBoard` or `lastSafeBoard` passed the zero-adjacency
check at the anchor. -/
def SafeInv (safe : Pos) (st : SearchState) : Prop :=
  (∀ b, st.solvedBoard = some b → anchorZero safe b) ∧
  (∀ b, st.bestBoard = some b → anchorZero safe b) ∧
  (∀ b, st.lastSafeBoard = some b → anchorZero safe b)

lemma searchIter_safeInv (rows cols bombs : Nat) (safe : Pos)
    (pct patience : Nat) (rngM rngG : Nat → Nat) (st : SearchState)
    (h : SafeInv safe st) :
    SafeInv safe (searchIter rows cols bombs safe pct patience rngM rngG st) := by
  obtain ⟨h1, h2, h3⟩ := h
  unfold searchIter
  dsimp only
  repeat' split
  all_goals refine ⟨fun b hb => ?_, fun b hb => ?_, fun b hb => ?_⟩
  all_goals first
    | exact h1 b hb
    | exact h2 b hb
    | exact h3 b hb
    | (obtain rfl := Option.some.inj hb; unfold anchorZero; omega)

lemma searchLoop_safeInv (rows cols bombs : Nat) (safe : Pos)
    (pct patience : Nat) (rngFam : Nat → Nat → Nat) (n : Nat) :
    ∀ st : SearchState, SafeInv safe st →
      SafeInv safe (searchLoop rows cols bombs safe pct patience rngFam n st) := by
  induction n with
  | zero => intro st h; exact h
  | succ m ih =>
    intro st h
    rw [searchLoop_succ]
    split
    · exact searchIter_safeInv rows cols bombs safe pct patience _ _ st h
    · exact ih _ (searchIter_safeInv rows cols bombs safe pct patience _ _ st h)

/-- C1 (counterexample): an in-precondition call on which the claim as
stated fails.  With `rows = 1`, `cols = 2`, `bombs = 1`,
`safe = (0,0)` (so `0 ≤ safe.row < rows`, `0 ≤ safe.col < cols`,
`0 ≤ bombs < rows*cols`) every candidate places the bomb adjacent to
the anchor, so the returned board — selected by the `last` fallback —
has `adjacentBombCount = 1 ≠ 0` at the anchor. -/
theorem c1_counterexample :
    (0 : Nat) < 1 ∧ (0 : Nat) < 2 ∧ (1 : Nat) < 1 * 2 ∧
    ((generateSolvableBoard 1 2 1 ⟨0, 0⟩ 3 100 (fun _ _ => 0) 1).cells 0 0).adjacentBombCount = 1 := by
  decide

/-- C1 (amended): the anchor cell has `adjacentBombCount = 0` in the
returned board whenever the selection was made by the `solved`, `best`
or `last-safe` branch; the `last` branch (and the dead last-resort
branch) can return a board whose anchor count is non-zero. -/
theorem c1_safe_branches_anchor_zero (rows cols bombs : Nat) (safe : Pos)
    (pct patience : Nat) (rngFam : Nat → Nat → Nat) (iters : Nat)
    (h : (searchLoop rows cols bombs safe pct patience rngFam (max 1 iters)
            initSearchState).solvedBoard.isSome = true ∨
         (searchLoop rows cols bombs safe pct patience rngFam (max 1 iters)
            initSearchState).bestBoard.isSome = true ∨
         (searchLoop rows cols bombs safe pct patience rngFam (max 1 iters)
            initSearchState).lastSafeBoard.isSome = true) :
    ((generateSolvableBoard rows cols bombs safe pct patience rngFam iters).cells
        safe.row safe.col).adjacentBombCount = 0 := by
  have hinv : SafeInv safe (searchLoop rows cols bombs safe pct patience rngFam
      (max 1 iters) initSearchState) :=
    searchLoop_safeInv rows cols bombs safe pct patience rngFam (max 1 iters)
      initSearchState (by refine ⟨?_, ?_, ?_⟩ <;> intro b hb <;> cases hb)
  obtain ⟨h1, h2, h3⟩ := hinv
  unfold generateSolvableBoard
  cases hs : (searchLoop rows cols bombs safe pct patience rngFam (max 1 iters)
      initSearchState).solvedBoard with
  | some b =>
    have hsel : selectBoard (searchLoop rows cols bombs safe pct patience rngFam
        (max 1 iters) initSearchState) = some b := by
      unfold selectBoard; rw [hs]
    simp only [hsel]
    exact h1 b hs
  | none =>
    cases hb : (searchLoop rows cols bombs safe pct patience rngFam (max 1 iters)
        initSearchState).bestBoard with
    | some b =>
      have hsel : selectBoard (searchLoop rows cols bombs safe pct patience rngFam
          (max 1 iters) initSearchState) = some b := by
        unfold selectBoard; rw [hs, hb]
      simp only [hsel]
      exact h2 b hb
    | none =>
      cases hf : (searchLoop rows cols bombs safe pct patience rngFam (max 1 iters)
          initSearchState).lastSafeBoard with
      | some b =>
        have hsel : selectBoard (searchLoop rows cols bombs safe pct patience rngFam
            (max 1 iters) initSearchState) = some b := by
          unfold selectBoard; rw [hs, hb, hf]
        simp only [hsel]
        exact h3 b hf
      | none =>
        rw [hs, hb, hf] at h
        simp at h

theorem c1_safe_branches_anchor_zero_witness :
    (searchLoop 1 1 0 ⟨0, 0⟩ 3 100 (fun _ _ => 0) (max 1 1)
        initSearchState).solvedBoard.isSome = true ∧
    ((generateSolvableBoard 1 1 0 ⟨0, 0⟩ 3 100 (fun _ _ => 0) 1).cells 0 0).adjacentBombCount = 0 :=
  ⟨by decide,
    c1_safe_branches_anchor_zero 1 1 0 ⟨0, 0⟩ 3 100 (fun _ _ => 0) 1
      (Or.inl (by decide))⟩

/-! ### List infrastructure for the generator and mutator -/

lemma countP_add_countP_not (f : Pos → Bool) :
    ∀ l : List Pos, l.countP f + l.countP (fun a => !f a) = l.length := by
  intro l
  induction l with
  | nil => rfl
  | cons a l ih =>
    rw [List.countP_cons, List.countP_cons]
    cases h : f a <;> simp [h] <;> omega

lemma foldl_count_eq (f : Pos → Bool) :
    ∀ (l : List Pos) (n : Nat),
      l.foldl (fun acc p => if f p then acc + 1 else acc) n = n + l.countP f := by
  intro l
  induction l with
  | nil => intro n; simp
  | cons a l ih =>
    intro n
    rw [List.foldl_cons, ih, List.countP_cons]
    cases h : f a <;> simp [h] <;> omega

lemma countBombs_eq (b : Board) :
    countBombs b =
      (allPositions b.rows b.cols).countP (fun p => (b.cells p.row p.col).isBomb) := by
  unfold countBombs
  rw [foldl_count_eq]
  omega

lemma mem_allPositions {rows cols : Nat} {p : Pos} :
    p ∈ allPositions rows cols ↔ p.row < rows ∧ p.col < cols := by
  unfold allPositions
  simp only [List.mem_flatMap, List.mem_map, List.mem_range]
  constructor
  · rintro ⟨r, hr, c, hc, rfl⟩
    exact ⟨hr, hc⟩
  · intro ⟨h1, h2⟩
    exact ⟨p.row, h1, p.col, h2, rfl⟩

lemma nodup_allPositions (rows cols : Nat) : (allPositions rows cols).Nodup := by
  unfold allPositions
  refine List.nodup_flatMap.mpr ⟨?_, ?_⟩
  · intro r _
    exact (List.nodup_range cols).map (fun c1 c2 h => by simpa using congrArg Pos.col h)
  · refine (List.pairwise_lt_range rows).imp ?_
    intro r1 r2 hlt x hx1 hx2
    simp only [List.mem_map, List.mem_range] at hx1 hx2
    obtain ⟨c1, _, rfl⟩ := hx1
    obtain ⟨c2, _, he⟩ := hx2
    have := congrArg Pos.row he
    simp at this
    omega

lemma allPositions_length (rows cols : Nat) :
    (allPositions rows cols).length = rows * cols := by
  unfold allPositions
  rw [List.length_flatMap]
  simp only [Function.comp_def, List.length_map, List.length_range, List.map_const',
    List.sum_replicate, smul_eq_mul]

lemma count_set_add (a v : Pos) :
    ∀ (l : List Pos) (i : Nat), i < l.length →
      (l.set i v).count a + (if l.getD i default = a then 1 else 0) =
        l.count a + (if v = a then 1 else 0) := by
  intro l
  induction l with
  | nil => intro i hi; simp at hi
  | cons x xs ih =>
    intro i hi
    cases i with
    | zero =>
      simp only [List.set, List.count_cons, List.getD_cons_zero]
      simp only [beq_iff_eq]
      split <;> split <;> omega
    | succ n =>
      have hn : n < xs.length := by simpa using hi
      simp only [List.set, List.count_cons, List.getD_cons_succ]
      have := ih n hn
      simp only [beq_iff_eq] at *
      split at this <;> split <;> omega

lemma count_dropLast_add (a : Pos) (l : List Pos) (h : l ≠ []) :
    l.dropLast.count a + (if l.getLast h = a then 1 else 0) = l.count a := by
  conv_rhs => rw [← List.dropLast_append_getLast h]
  rw [List.count_append]
  simp [List.count_cons, List.count_nil, beq_iff_eq]

lemma swapAt_perm (l : List Pos) (i j : Nat) (hi : i < l.length) (hj : j < l.length) :
    (swapAt l i j).Perm l := by
  rw [List.perm_iff_count]
  intro a
  unfold swapAt
  have hgdj : l.getD j default = l[j] := List.getD_eq_getElem l default hj
  have hgdi : l.getD i default = l[i] := List.getD_eq_getElem l default hi
  have h1 := count_set_add a (l.getD j default) l i hi
  have hj2 : j < (l.set i (l.getD j default)).length := by
    rw [List.length_set]; exact hj
  have h2 := count_set_add a (l.getD i default) (l.set i (l.getD j default)) j hj2
  have hie : (l.set i (l.getD j default)).getD j default = l[j] := by
    rw [List.getD_eq_getElem _ default hj2, List.getElem_set]
    split
    · exact hgdj
    · rfl
  rw [hgdj] at h1 h2 hie ⊢
  rw [hgdi] at h1 h2 ⊢
  rw [hie] at h2
  generalize hB : ((l.set i l[j]).set j l[i]).count a = B at h2 ⊢
  generalize hA : (l.set i l[j]).count a = A at h1 h2
  generalize hC : l.count a = C at h1 ⊢
  by_cases e1 : l[j] = a <;> by_cases e2 : l[i] = a <;>
    simp [e1, e2] at h1 h2 <;> omega

lemma fyLoop_perm (rng : Nat → Nat) :
    ∀ (i : Nat) (l : List Pos), i < l.length → (fyLoop rng i l).Perm l := by
  intro i
  induction i with
  | zero => intro l _; exact List.Perm.refl l
  | succ n ih =>
    intro l hl
    have hj : randBelow rng (n + 1) (n + 2) < l.length := by
      have : randBelow rng (n + 1) (n + 2) < n + 2 := by
        unfold randBelow
        split
        · omega
        · exact Nat.mod_lt _ (by omega)
      omega
    have hswap := swapAt_perm l (n + 1) (randBelow rng (n + 1) (n + 2)) hl hj
    have hlen : n < (swapAt l (n + 1) (randBelow rng (n + 1) (n + 2))).length := by
      rw [hswap.length_eq]; omega
    exact (ih _ hlen).trans hswap

lemma shuffle_perm (rng : Nat → Nat) (l : List Pos) : (shuffle rng l).Perm l := by
  unfold shuffle
  split
  · exact List.Perm.refl l
  · next n hn => exact fyLoop_perm rng n l (by omega)

lemma removeAtSwap_cons_perm (l : List Pos) (i : Nat) (hi : i < l.length) :
    (l.getD i default :: removeAtSwap l i).Perm l := by
  have hlpos : 0 < l.length := by omega
  have hne : l ≠ [] := List.ne_nil_of_length_pos hlpos
  have hlast : l.getLast?.getD default = l[l.length - 1] := by
    rw [List.getLast?_eq_getElem?, List.getElem?_eq_getElem (by omega)]
    rfl
  rw [List.perm_iff_count]
  intro a
  unfold removeAtSwap
  have hset := count_set_add a (l.getLast?.getD default) l i hi
  have hmlen : (l.set i (l.getLast?.getD default)).length = l.length := List.length_set l i _
  have hmne : l.set i (l.getLast?.getD default) ≠ [] := by
    apply List.ne_nil_of_length_pos
    rw [hmlen]; omega
  have hdrop := count_dropLast_add a (l.set i (l.getLast?.getD default)) hmne
  have hgl : (l.set i (l.getLast?.getD default)).getLast hmne = l.getLast?.getD default := by
    rw [List.getLast_eq_getElem, List.getElem_set]
    split
    · rfl
    · simp only [hmlen]
      exact hlast.symm
  rw [hgl] at hdrop
  have hgd : l.getD i default = l[i] := List.getD_eq_getElem l default hi
  rw [List.count_cons, hgd]
  rw [hgd] at hset
  simp only [beq_iff_eq] at *
  by_cases e1 : l[i] = a <;> by_cases e2 : l.getLast?.getD default = a <;>
    simp [e1, e2] at hset hdrop ⊢ <;> omega

lemma removeAtSwap_length (l : List Pos) (i : Nat) (hi : i < l.length) :
    (removeAtSwap l i).length + 1 = l.length := by
  have := (removeAtSwap_cons_perm l i hi).length_eq
  simpa using this

lemma removeAtSwap_subset (l : List Pos) (i : Nat) (hi : i < l.length) :
    ∀ q ∈ removeAtSwap l i, q ∈ l := by
  intro q hq
  exact (removeAtSwap_cons_perm l i hi).mem_iff.mp (List.mem_cons_of_mem _ hq)

lemma removeAtSwap_nodup (l : List Pos) (i : Nat) (hi : i < l.length)
    (h : l.Nodup) :
    (removeAtSwap l i).Nodup ∧ l.getD i default ∉ removeAtSwap l i := by
  have hc : (l.getD i default :: removeAtSwap l i).Nodup :=
    ((removeAtSwap_cons_perm l i hi).nodup_iff).mpr h
  exact ⟨hc.of_cons, (List.nodup_cons.mp hc).1⟩

lemma getD_mem (l : List Pos) (i : Nat) (hi : i < l.length) :
    l.getD i default ∈ l := by
  rw [List.getD_eq_getElem l default hi]
  exact List.getElem_mem hi

lemma Pos.eq_iff (p q : Pos) : p = q ↔ p.row = q.row ∧ p.col = q.col := by
  cases p; cases q; simp

lemma filterMap_skip_eq_filter_map (r : Nat) (safe : Pos) :
    ∀ cl : List Nat,
      cl.filterMap (fun c => if r = safe.row ∧ c = safe.col then none else some ⟨r, c⟩) =
        (cl.map (fun c => (⟨r, c⟩ : Pos))).filter (fun p => !(decide (p = safe))) := by
  intro cl
  induction cl with
  | nil => rfl
  | cons c cl ih =>
    rw [List.filterMap_cons, List.map_cons, List.filter_cons]
    by_cases h : r = safe.row ∧ c = safe.col
    · obtain ⟨h1, h2⟩ := h
      subst h1
      subst h2
      have he : (⟨safe.row, safe.col⟩ : Pos) = safe := rfl
      simp [he] at ih ⊢
      exact ih
    · have he : ¬((⟨r, c⟩ : Pos) = safe) := fun hc => h ⟨congrArg Pos.row hc, congrArg Pos.col hc⟩
      simp [h, he, ih]

lemma candidateList_eq_filter (rows cols : Nat) (safe : Pos) :
    candidateList rows cols safe =
      (allPositions rows cols).filter (fun p => !(decide (p = safe))) := by
  unfold candidateList allPositions
  rw [List.filter_flatMap]
  simp only [filterMap_skip_eq_filter_map]

lemma mem_candidateList {rows cols : Nat} {safe p : Pos} :
    p ∈ candidateList rows cols safe ↔
      (p.row < rows ∧ p.col < cols) ∧ p ≠ safe := by
  rw [candidateList_eq_filter, List.mem_filter, mem_allPositions]
  simp

lemma nodup_candidateList (rows cols : Nat) (safe : Pos) :
    (candidateList rows cols safe).Nodup := by
  rw [candidateList_eq_filter]
  exact (nodup_allPositions rows cols).filter _

lemma length_candidateList (rows cols : Nat) (safe : Pos)
    (hr : safe.row < rows) (hc : safe.col < cols) :
    (candidateList rows cols safe).length = rows * cols - 1 := by
  rw [candidateList_eq_filter]
  have h1 := countP_add_countP_not (fun p => decide (p = safe)) (allPositions rows cols)
  have h2 : (allPositions rows cols).countP (fun p => decide (p = safe)) = 1 := by
    have hcount : (allPositions rows cols).count safe = 1 :=
      List.count_eq_one_of_mem (nodup_allPositions rows cols)
        (mem_allPositions.mpr ⟨hr, hc⟩)
    rw [← hcount, List.count]
    exact List.countP_congr (fun x _ => by simp)
  rw [← List.countP_eq_length_filter]
  rw [allPositions_length] at h1
  omega

lemma filterMap_zone_eq_filter_map (safe : Pos) (r : Nat) :
    ∀ cl : List Nat,
      cl.filterMap (fun c => if isInSafeZone r c safe then none else some ⟨r, c⟩) =
        (cl.map (fun c => (⟨r, c⟩ : Pos))).filter
          (fun p => !(isInSafeZone p.row p.col safe)) := by
  intro cl
  induction cl with
  | nil => rfl
  | cons c cl ih =>
    rw [List.filterMap_cons, List.map_cons, List.filter_cons]
    cases h : isInSafeZone r c safe
    · simp [h, ih]
    · simp [h, ih]

lemma eligibleList_eq_filter (rows cols : Nat) (safe : Pos) :
    eligibleList rows cols safe =
      (allPositions rows cols).filter (fun p => !(isInSafeZone p.row p.col safe)) := by
  unfold eligibleList allPositions
  rw [List.filter_flatMap]
  simp only [filterMap_zone_eq_filter_map]

lemma mem_eligibleList {rows cols : Nat} {safe p : Pos} :
    p ∈ eligibleList rows cols safe ↔
      (p.row < rows ∧ p.col < cols) ∧ isInSafeZone p.row p.col safe = false := by
  rw [eligibleList_eq_filter, List.mem_filter, mem_allPositions]
  simp

lemma nodup_eligibleList (rows cols : Nat) (safe : Pos) :
    (eligibleList rows cols safe).Nodup := by
  rw [eligibleList_eq_filter]
  exact (nodup_allPositions rows cols).filter _

lemma setBombTrue_eq (b : Board) (p : Pos) : setBombTrue b p = setBombVal b p true := rfl

lemma setBombVal_cells (b : Board) (p : Pos) (v : Bool) (r c : Nat) :
    (setBombVal b p v).cells r c =
      if r = p.row ∧ c = p.col then { b.cells p.row p.col with isBomb := v }
      else b.cells r c := rfl

lemma countP_update_true (f g : Pos → Bool) :
    ∀ l : List Pos, l.Nodup → ∀ p, p ∈ l → f p = true → g p = false →
      (∀ q ∈ l, q ≠ p → f q = g q) → l.countP f = l.countP g + 1 := by
  intro l
  induction l with
  | nil => intro _ p hp; cases hp
  | cons a l ih =>
    intro hnd p hp hfp hgp hagree
    rw [List.countP_cons, List.countP_cons]
    rcases List.mem_cons.mp hp with rfl | hmem
    · have hnotin : p ∉ l := (List.nodup_cons.mp hnd).1
      have heq : l.countP f = l.countP g :=
        List.countP_congr (fun q hq => by
          rw [hagree q (List.mem_cons_of_mem _ hq) (fun he => hnotin (he ▸ hq))])
      rw [heq, hfp, hgp]
      simp
    · have hne : a ≠ p := fun he => (List.nodup_cons.mp hnd).1 (he ▸ hmem)
      have hih := ih (List.nodup_cons.mp hnd).2 p hmem hfp hgp
        (fun q hq hqp => hagree q (List.mem_cons_of_mem _ hq) hqp)
      rw [hih, hagree a (List.mem_cons_self a l) hne]
      omega

lemma countBombs_congr (b b' : Board) (hr : b.rows = b'.rows) (hc : b.cols = b'.cols)
    (h : ∀ r c, r < b.rows → c < b.cols → (b.cells r c).isBomb = (b'.cells r c).isBomb) :
    countBombs b = countBombs b' := by
  rw [countBombs_eq, countBombs_eq, ← hr, ← hc]
  exact List.countP_congr (fun p hp => by
    have hm := mem_allPositions.mp hp
    rw [h p.row p.col hm.1 hm.2])

lemma countBombs_setBombVal_true (b : Board) (p : Pos) (hr : p.row < b.rows)
    (hc : p.col < b.cols) (hb : (b.cells p.row p.col).isBomb = false) :
    countBombs (setBombVal b p true) = countBombs b + 1 := by
  rw [countBombs_eq, countBombs_eq]
  show (allPositions b.rows b.cols).countP _ =
    (allPositions b.rows b.cols).countP _ + 1
  refine countP_update_true _ _ (allPositions b.rows b.cols)
    (nodup_allPositions _ _) p (mem_allPositions.mpr ⟨hr, hc⟩) ?_ hb ?_
  · rw [setBombVal_cells, if_pos ⟨rfl, rfl⟩]
  · intro q _ hqp
    rw [setBombVal_cells, if_neg (fun hco => hqp ((Pos.eq_iff q p).mpr hco))]

lemma countBombs_setBombVal_false (b : Board) (p : Pos) (hr : p.row < b.rows)
    (hc : p.col < b.cols) (hb : (b.cells p.row p.col).isBomb = true) :
    countBombs b = countBombs (setBombVal b p false) + 1 := by
  rw [countBombs_eq, countBombs_eq]
  show (allPositions b.rows b.cols).countP _ =
    (allPositions b.rows b.cols).countP _ + 1
  refine countP_update_true _ _ (allPositions b.rows b.cols)
    (nodup_allPositions _ _) p (mem_allPositions.mpr ⟨hr, hc⟩) hb ?_ ?_
  · rw [setBombVal_cells, if_pos ⟨rfl, rfl⟩]
  · intro q _ hqp
    rw [setBombVal_cells, if_neg (fun hco => hqp ((Pos.eq_iff q p).mpr hco))]

lemma cells_foldl_setBombTrue :
    ∀ (S : List Pos) (b : Board) (r c : Nat),
      (∀ p ∈ S, ¬(r = p.row ∧ c = p.col)) →
      (S.foldl setBombTrue b).cells r c = b.cells r c := by
  intro S
  induction S with
  | nil => intro b r c _; rfl
  | cons a S ih =>
    intro b r c hcond
    rw [List.foldl_cons, ih _ _ _ (fun p hp => hcond p (List.mem_cons_of_mem _ hp)),
      setBombTrue_eq, setBombVal_cells, if_neg (hcond a (List.mem_cons_self a S))]

lemma countBombs_foldl_setBombTrue :
    ∀ (S : List Pos) (b : Board), S.Nodup →
      (∀ p ∈ S, p.row < b.rows ∧ p.col < b.cols ∧ (b.cells p.row p.col).isBomb = false) →
      countBombs (S.foldl setBombTrue b) = countBombs b + S.length := by
  intro S
  induction S with
  | nil => intro b _ _; simp
  | cons a S ih =>
    intro b hnd hcond
    obtain ⟨har, hac, hab⟩ := hcond a (List.mem_cons_self a S)
    have hcond' : ∀ p ∈ S, p.row < (setBombTrue b a).rows ∧
        p.col < (setBombTrue b a).cols ∧
        ((setBombTrue b a).cells p.row p.col).isBomb = false := by
      intro p hp
      obtain ⟨hpr, hpc, hpb⟩ := hcond p (List.mem_cons_of_mem _ hp)
      have hne : p ≠ a := fun he => (List.nodup_cons.mp hnd).1 (he ▸ hp)
      refine ⟨hpr, hpc, ?_⟩
      rw [setBombTrue_eq, setBombVal_cells,
        if_neg (fun hco => hne ((Pos.eq_iff p a).mpr hco))]
      exact hpb
    rw [List.foldl_cons, ih (setBombTrue b a) (List.nodup_cons.mp hnd).2 hcond',
      setBombTrue_eq, countBombs_setBombVal_true b a har hac hab, List.length_cons]
    omega

lemma computeAdjacency_cells_isBomb (b : Board) (r c : Nat) :
    ((computeAdjacency b).cells r c).isBomb = (b.cells r c).isBomb := by
  unfold computeAdjacency
  dsimp only
  split <;> rfl

lemma computeAdjacency_cells_revealed (b : Board) (r c : Nat) :
    ((computeAdjacency b).cells r c).revealed = (b.cells r c).revealed := by
  unfold computeAdjacency
  dsimp only
  split <;> rfl

lemma computeAdjacency_cells_flagged (b : Board) (r c : Nat) :
    ((computeAdjacency b).cells r c).flagged = (b.cells r c).flagged := by
  unfold computeAdjacency
  dsimp only
  split <;> rfl

lemma countBombs_computeAdjacency (b : Board) :
    countBombs (computeAdjacency b) = countBombs b :=
  countBombs_congr _ _ rfl rfl (fun r c _ _ => computeAdjacency_cells_isBomb b r c)

lemma countBombs_createEmptyBoard (rows cols : Nat) :
    countBombs (createEmptyBoard rows cols) = 0 := by
  rw [countBombs_eq]
  exact List.countP_eq_zero.mpr (fun p _ => by simp [createEmptyBoard])

/-! ### C4: bomb-count invariants of generation and mutation -/

lemma generateRandomBoard_count (rows cols bombs : Nat) (safe : Pos)
    (rng : Nat → Nat) (hr : safe.row < rows) (hc : safe.col < cols) :
    countBombs (generateRandomBoard rows cols bombs safe rng) =
      min bombs (rows * cols - 1) ∧
    ((generateRandomBoard rows cols bombs safe rng).cells safe.row safe.col).isBomb = false := by
  have hperm := shuffle_perm rng (candidateList rows cols safe)
  have hnodup : (shuffle rng (candidateList rows cols safe)).Nodup :=
    hperm.nodup_iff.mpr (nodup_candidateList rows cols safe)
  have hnodupT : ((shuffle rng (candidateList rows cols safe)).take bombs).Nodup :=
    List.Nodup.sublist (List.take_sublist _ _) hnodup
  have hmemT : ∀ p ∈ (shuffle rng (candidateList rows cols safe)).take bombs,
      (p.row < rows ∧ p.col < cols) ∧ p ≠ safe := fun p hp =>
    mem_candidateList.mp (hperm.mem_iff.mp ((List.take_sublist _ _).mem hp))
  have hlenT : ((shuffle rng (candidateList rows cols safe)).take bombs).length =
      min bombs (rows * cols - 1) := by
    rw [List.length_take, hperm.length_eq, length_candidateList rows cols safe hr hc]
  constructor
  · show countBombs (computeAdjacency
      (((shuffle rng (candidateList rows cols safe)).take bombs).foldl setBombTrue
        (createEmptyBoard rows cols))) = _
    rw [countBombs_computeAdjacency,
      countBombs_foldl_setBombTrue _ _ hnodupT
        (fun p hp => ⟨(hmemT p hp).1.1, (hmemT p hp).1.2, rfl⟩),
      countBombs_createEmptyBoard, hlenT]
    omega
  · show ((computeAdjacency
      (((shuffle rng (candidateList rows cols safe)).take bombs).foldl setBombTrue
        (createEmptyBoard rows cols))).cells safe.row safe.col).isBomb = false
    rw [computeAdjacency_cells_isBomb,
      cells_foldl_setBombTrue _ _ _ _
        (fun p hp hco => (hmemT p hp).2 ((Pos.eq_iff p safe).mpr ⟨hco.1.symm, hco.2.symm⟩))]
    rfl

lemma cloneBombLayout_isBomb_inb (parent : Board) (r c : Nat)
    (hr : r < parent.rows) (hc : c < parent.cols) :
    ((cloneBombLayout parent).cells r c).isBomb = (parent.cells r c).isBomb := by
  unfold cloneBombLayout
  dsimp only
  cases hb : (parent.cells r c).isBomb
  · rw [if_neg (by simp)]
    rfl
  · rw [if_pos ⟨hr, hc, rfl⟩]

lemma cloneBombLayout_play_fields (parent : Board) (r c : Nat) :
    ((cloneBombLayout parent).cells r c).revealed = false ∧
    ((cloneBombLayout parent).cells r c).flagged = false := by
  unfold cloneBombLayout
  dsimp only
  split <;> exact ⟨rfl, rfl⟩

lemma countBombs_cloneBombLayout (parent : Board) :
    countBombs (cloneBombLayout parent) = countBombs parent :=
  countBombs_congr _ _ rfl rfl (fun r c hr hc => cloneBombLayout_isBomb_inb parent r c hr hc)

lemma swapStep_inv (rng : Nat → Nat) (parent : Board) (safe : Pos) (k : Nat)
    (st : SwapState) (h : SwapInv parent safe st)
    (hb : 1 ≤ st.bombPositions.length) (hs : 1 ≤ st.safePositions.length) :
    SwapInv parent safe
      ⟨setBombVal (setBombVal st.board
          (st.bombPositions.getD (randBelow rng (2 * k) st.bombPositions.length) default)
          false)
        (st.safePositions.getD (randBelow rng (2 * k + 1) st.safePositions.length) default)
        true,
        removeAtSwap st.bombPositions (randBelow rng (2 * k) st.bombPositions.length),
        removeAtSwap st.safePositions (randBelow rng (2 * k + 1) st.safePositions.length)⟩ ∧
    (removeAtSwap st.bombPositions
        (randBelow rng (2 * k) st.bombPositions.length)).length + 1 =
      st.bombPositions.length ∧
    (removeAtSwap st.safePositions
        (randBelow rng (2 * k + 1) st.safePositions.length)).length + 1 =
      st.safePositions.length := by
  have hdisj : st.bombPositions.Disjoint st.safePositions :=
    List.disjoint_of_nodup_append h.pools_nodup
  have hbnd : st.bombPositions.Nodup := (List.nodup_append.mp h.pools_nodup).1
  have hsnd : st.safePositions.Nodup := (List.nodup_append.mp h.pools_nodup).2.1
  have hbi : randBelow rng (2 * k) st.bombPositions.length < st.bombPositions.length := by
    unfold randBelow
    split
    · omega
    · exact Nat.mod_lt _ (by omega)
  have hsi : randBelow rng (2 * k + 1) st.safePositions.length < st.safePositions.length := by
    unfold randBelow
    split
    · omega
    · exact Nat.mod_lt _ (by omega)
  set bi := randBelow rng (2 * k) st.bombPositions.length with hbidef
  set si := randBelow rng (2 * k + 1) st.safePositions.length with hsidef
  set bombPos := st.bombPositions.getD bi default with hbpdef
  set safePos := st.safePositions.getD si default with hspdef
  have hbpmem : bombPos ∈ st.bombPositions := by
    rw [hbpdef]; exact getD_mem _ _ hbi
  have hspmem : safePos ∈ st.safePositions := by
    rw [hspdef]; exact getD_mem _ _ hsi
  obtain ⟨hbr, hbc, hbb, hbz⟩ := h.bombs_are bombPos hbpmem
  obtain ⟨hsr, hsc, hsb, hsz⟩ := h.safes_are safePos hspmem
  have hbs_ne : bombPos ≠ safePos := fun he => hdisj hbpmem (by rw [he]; exact hspmem)
  obtain ⟨hbrest_nd, hbnotin⟩ := removeAtSwap_nodup st.bombPositions bi hbi hbnd
  obtain ⟨hsrest_nd, hsnotin⟩ := removeAtSwap_nodup st.safePositions si hsi hsnd
  rw [← hbpdef] at hbnotin
  rw [← hspdef] at hsnotin
  have hbrest_sub := removeAtSwap_subset st.bombPositions bi hbi
  have hsrest_sub := removeAtSwap_subset st.safePositions si hsi
  have hbrest_len := removeAtSwap_length st.bombPositions bi hbi
  have hsrest_len := removeAtSwap_length st.safePositions si hsi
  have hcell : ∀ r c : Nat, ¬(r = bombPos.row ∧ c = bombPos.col) →
      ¬(r = safePos.row ∧ c = safePos.col) →
      (setBombVal (setBombVal st.board bombPos false) safePos true).cells r c =
        st.board.cells r c := by
    intro r c h1 h2
    rw [setBombVal_cells, if_neg h2, setBombVal_cells, if_neg h1]
  have hmid : ((setBombVal st.board bombPos false).cells safePos.row safePos.col) =
      st.board.cells safePos.row safePos.col := by
    rw [setBombVal_cells, if_neg (fun hco => hbs_ne ((Pos.eq_iff _ _).mpr
      ⟨hco.1.symm, hco.2.symm⟩))]
  have hcount : countBombs (setBombVal (setBombVal st.board bombPos false) safePos true) =
      countBombs st.board := by
    have h1 := countBombs_setBombVal_false st.board bombPos hbr hbc hbb
    have h2 := countBombs_setBombVal_true (setBombVal st.board bombPos false) safePos
      hsr hsc (by rw [hmid]; exact hsb)
    omega
  refine ⟨⟨h.rows_eq, h.cols_eq, by rw [hcount]; exact h.count_eq, ?_, ?_, ?_, ?_⟩,
    hbrest_len, hsrest_len⟩
  · rw [List.nodup_append]
    exact ⟨hbrest_nd, hsrest_nd,
      fun q hq hq' => hdisj (hbrest_sub q hq) (hsrest_sub q hq')⟩
  · intro q hq
    obtain ⟨hqr, hqc, hqb, hqz⟩ := h.bombs_are q (hbrest_sub q hq)
    have hqnb : q ≠ bombPos := fun he => hbnotin (by rw [← he]; exact hq)
    have hqns : q ≠ safePos := fun he =>
      hdisj (hbrest_sub q hq) (by rw [he]; exact hspmem)
    refine ⟨hqr, hqc, ?_, hqz⟩
    rw [hcell q.row q.col (fun hco => hqnb ((Pos.eq_iff q bombPos).mpr hco))
      (fun hco => hqns ((Pos.eq_iff q safePos).mpr hco))]
    exact hqb
  · intro q hq
    obtain ⟨hqr, hqc, hqb, hqz⟩ := h.safes_are q (hsrest_sub q hq)
    have hqns : q ≠ safePos := fun he => hsnotin (by rw [← he]; exact hq)
    have hqnb : q ≠ bombPos := fun he =>
      hdisj (by rw [← he] at hbpmem; exact hbpmem) (hsrest_sub q hq)
    refine ⟨hqr, hqc, ?_, hqz⟩
    rw [hcell q.row q.col (fun hco => hqnb ((Pos.eq_iff q bombPos).mpr hco))
      (fun hco => hqns ((Pos.eq_iff q safePos).mpr hco))]
    exact hqb
  · intro r c hz
    have h1 : ¬(r = bombPos.row ∧ c = bombPos.col) := by
      rintro ⟨rfl, rfl⟩
      rw [hz] at hbz
      cases hbz
    have h2 : ¬(r = safePos.row ∧ c = safePos.col) := by
      rintro ⟨rfl, rfl⟩
      rw [hz] at hsz
      cases hsz
    rw [hcell r c h1 h2]
    exact h.zone_frame r c hz

lemma swapLoop_inv (rng : Nat → Nat) (parent : Board) (safe : Pos) :
    ∀ (n k : Nat) (st : SwapState), SwapInv parent safe st →
      n ≤ st.bombPositions.length → n ≤ st.safePositions.length →
      SwapInv parent safe (swapLoop rng k n st) := by
  intro n
  induction n with
  | zero => intro k st h _ _; exact h
  | succ m ih =>
    intro k st h hb hs
    obtain ⟨hstep, hblen, hslen⟩ :=
      swapStep_inv rng parent safe k st h (by omega) (by omega)
    show SwapInv parent safe
      (swapLoop rng (k + 1) m
        ⟨setBombVal (setBombVal st.board
            (st.bombPositions.getD (randBelow rng (2 * k) st.bombPositions.length) default)
            false)
          (st.safePositions.getD (randBelow rng (2 * k + 1) st.safePositions.length) default)
          true,
          removeAtSwap st.bombPositions (randBelow rng (2 * k) st.bombPositions.length),
          removeAtSwap st.safePositions
            (randBelow rng (2 * k + 1) st.safePositions.length)⟩)
    refine ih (k + 1) _ hstep ?_ ?_
    · show m ≤ (removeAtSwap st.bombPositions
        (randBelow rng (2 * k) st.bombPositions.length)).length
      omega
    · show m ≤ (removeAtSwap st.safePositions
        (randBelow rng (2 * k + 1) st.safePositions.length)).length
      omega

lemma mutateBoard_some (parent : Board) (safe : Pos) (k : Nat) (rng : Nat → Nat)
    (b : Board) (h : mutateBoard parent safe k rng = some b) :
    countBombs b = countBombs parent ∧
    ∀ r c : Nat, isInSafeZone r c safe = true →
      (b.cells r c).isBomb = ((cloneBombLayout parent).cells r c).isBomb ∧
      (b.cells r c).revealed = false ∧ (b.cells r c).flagged = false := by
  unfold mutateBoard at h
  split at h
  · cases h
  · dsimp only at h
    split at h
    · cases h
    · next hk hguard =>
      have hb := Option.some.inj h
      push_neg at hguard
      have hinit : SwapInv parent safe
          ⟨cloneBombLayout parent,
            (eligibleList (cloneBombLayout parent).rows (cloneBombLayout parent).cols
              safe).filter
              (fun p => ((cloneBombLayout parent).cells p.row p.col).isBomb),
            (eligibleList (cloneBombLayout parent).rows (cloneBombLayout parent).cols
              safe).filter
              (fun p => !((cloneBombLayout parent).cells p.row p.col).isBomb)⟩ := by
        refine ⟨rfl, rfl, countBombs_cloneBombLayout parent, ?_, ?_, ?_, ?_⟩
        · rw [List.nodup_append]
          refine ⟨(nodup_eligibleList _ _ _).filter _, (nodup_eligibleList _ _ _).filter _,
            fun q hq hq' => ?_⟩
          have h1 := (List.mem_filter.mp hq).2
          have h2 := (List.mem_filter.mp hq').2
          rw [h1] at h2
          cases h2
        · intro q hq
          obtain ⟨hqe, hqb⟩ := List.mem_filter.mp hq
          obtain ⟨⟨hqr, hqc⟩, hqz⟩ := mem_eligibleList.mp hqe
          exact ⟨hqr, hqc, hqb, hqz⟩
        · intro q hq
          obtain ⟨hqe, hqb⟩ := List.mem_filter.mp hq
          obtain ⟨⟨hqr, hqc⟩, hqz⟩ := mem_eligibleList.mp hqe
          exact ⟨hqr, hqc, by simpa using hqb, hqz⟩
        · intro r c _
          rfl
      have hfin := swapLoop_inv rng parent safe k 0 _ hinit hguard.1 hguard.2
      subst hb
      constructor
      · rw [countBombs_computeAdjacency]
        exact hfin.count_eq
      · intro r c hz
        have hcell := hfin.zone_frame r c hz
        refine ⟨?_, ?_, ?_⟩
        · rw [computeAdjacency_cells_isBomb, hcell]
        · rw [computeAdjacency_cells_revealed, hcell]
          exact (cloneBombLayout_play_fields parent r c).1
        · rw [computeAdjacency_cells_flagged, hcell]
          exact (cloneBombLayout_play_fields parent r c).2

/-- C4: a generated board has exactly `min(bombs, rows*cols - 1)` bomb
cells and never a bomb at `safe`; a successful mutation preserves the
parent's total bomb count exactly. -/
theorem c4_bomb_count_invariant (rows cols bombs : Nat) (safe : Pos)
    (rng : Nat → Nat) (hr : safe.row < rows) (hc : safe.col < cols) :
    countBombs (generateRandomBoard rows cols bombs safe rng) =
      min bombs (rows * cols - 1) ∧
    ((generateRandomBoard rows cols bombs safe rng).cells safe.row safe.col).isBomb = false ∧
    ∀ (parent : Board) (k : Nat) (rngM : Nat → Nat),
      (mutateBoard parent safe k rngM).isSome = true →
      countBombs ((mutateBoard parent safe k rngM).getD (createEmptyBoard 0 0)) =
        countBombs parent := by
  obtain ⟨h1, h2⟩ := generateRandomBoard_count rows cols bombs safe rng hr hc
  refine ⟨h1, h2, ?_⟩
  intro parent k rngM hsome
  obtain ⟨b, hb⟩ := Option.isSome_iff_exists.mp hsome
  rw [hb]
  exact (mutateBoard_some parent safe k rngM b hb).1

theorem c4_bomb_count_invariant_witness :
    (0 : Nat) < 4 ∧ (0 : Nat) < 4 ∧
    countBombs (generateRandomBoard 4 4 2 ⟨0, 0⟩ (fun _ => 0)) = min 2 (4 * 4 - 1) ∧
    ((generateRandomBoard 4 4 2 ⟨0, 0⟩ (fun _ => 0)).cells 0 0).isBomb = false ∧
    (mutateBoard (generateRandomBoard 4 4 2 ⟨0, 0⟩ (fun _ => 0)) ⟨0, 0⟩ 1
        (fun _ => 0)).isSome = true ∧
    countBombs ((mutateBoard (generateRandomBoard 4 4 2 ⟨0, 0⟩ (fun _ => 0)) ⟨0, 0⟩ 1
        (fun _ => 0)).getD (createEmptyBoard 0 0)) =
      countBombs (generateRandomBoard 4 4 2 ⟨0, 0⟩ (fun _ => 0)) := by
  have h := c4_bomb_count_invariant 4 4 2 ⟨0, 0⟩ (fun _ => 0) (by decide) (by decide)
  exact ⟨by decide, by decide, h.1, h.2.1,
    by decide, h.2.2 (generateRandomBoard 4 4 2 ⟨0, 0⟩ (fun _ => 0)) 1 (fun _ => 0) (by decide)⟩

/-- C5: a successful mutation leaves every in-bounds cell of the 3×3
safe zone with the parent's `isBomb` value, and the child's zone cells
carry the fresh clone's play fields (`revealed = flagged = false`) —
the mutation operates on a fresh clone of the bomb layout only; the
parent itself, being threaded immutably, is untouched. -/
theorem c5_safe_zone_frame (parent : Board) (safe : Pos) (k : Nat)
    (rng : Nat → Nat) (h : (mutateBoard parent safe k rng).isSome = true) :
    ∀ r c : Nat, r < parent.rows → c < parent.cols → isInSafeZone r c safe = true →
      (((mutateBoard parent safe k rng).getD (createEmptyBoard 0 0)).cells r c).isBomb =
        (parent.cells r c).isBomb ∧
      (((mutateBoard parent safe k rng).getD (createEmptyBoard 0 0)).cells r c).revealed =
        false ∧
      (((mutateBoard parent safe k rng).getD (createEmptyBoard 0 0)).cells r c).flagged =
        false := by
  intro r c hrr hcc hz
  obtain ⟨b, hb⟩ := Option.isSome_iff_exists.mp h
  rw [hb]
  obtain ⟨hib, hrev, hflg⟩ := (mutateBoard_some parent safe k rng b hb).2 r c hz
  refine ⟨?_, hrev, hflg⟩
  rw [Option.getD_some, hib, cloneBombLayout_isBomb_inb parent r c hrr hcc]

theorem c5_safe_zone_frame_witness :
    (mutateBoard (generateRandomBoard 4 4 2 ⟨0, 0⟩ (fun _ => 0)) ⟨0, 0⟩ 1
        (fun _ => 0)).isSome = true ∧
    (0 : Nat) < 4 ∧ isInSafeZone 0 0 ⟨0, 0⟩ = true ∧
    (((mutateBoard (generateRandomBoard 4 4 2 ⟨0, 0⟩ (fun _ => 0)) ⟨0, 0⟩ 1
        (fun _ => 0)).getD (createEmptyBoard 0 0)).cells 0 0).isBomb =
      ((generateRandomBoard 4 4 2 ⟨0, 0⟩ (fun _ => 0)).cells 0 0).isBomb := by
  refine ⟨by decide, by decide, by decide, ?_⟩
  exact (c5_safe_zone_frame (generateRandomBoard 4 4 2 ⟨0, 0⟩ (fun _ => 0)) ⟨0, 0⟩ 1
    (fun _ => 0) (by decide) 0 0 (by decide) (by decide) (by decide)).1

/-! ### C7: when mutation is infeasible -/

lemma mutate_pool_lengths (parent : Board) (safe : Pos) :
    ((eligibleList (cloneBombLayout parent).rows (cloneBombLayout parent).cols safe).filter
      (fun p => ((cloneBombLayout parent).cells p.row p.col).isBomb)).length =
      bombsOutside parent safe ∧
    ((eligibleList (cloneBombLayout parent).rows (cloneBombLayout parent).cols safe).filter
      (fun p => !((cloneBombLayout parent).cells p.row p.col).isBomb)).length =
      safesOutside parent safe := by
  unfold bombsOutside safesOutside
  constructor
  · congr 1
    exact List.filter_congr (fun p hp => by
      obtain ⟨⟨hr, hc⟩, _⟩ := mem_eligibleList.mp hp
      rw [cloneBombLayout_isBomb_inb parent p.row p.col hr hc])
  · congr 1
    exact List.filter_congr (fun p hp => by
      obtain ⟨⟨hr, hc⟩, _⟩ := mem_eligibleList.mp hp
      rw [cloneBombLayout_isBomb_inb parent p.row p.col hr hc])

/-- C7: for `swapCount ≥ 1`, `mutateBoard` returns `null` exactly when
the parent has fewer than `swapCount` bombs outside the safe zone or
fewer than `swapCount` non-bombs outside it; and in the orchestrator's
candidate step a `null` mutation makes the iteration use a freshly
generated random board. -/
theorem c7_mutation_none_iff (parent : Board) (safe : Pos) (k : Nat)
    (rng : Nat → Nat) (hk : 1 ≤ k) :
    ((mutateBoard parent safe k rng).isNone = true ↔
      bombsOutside parent safe < k ∨ safesOutside parent safe < k) ∧
    ∀ (rows cols bombs : Nat) (rngG : Nat → Nat),
      mutateBoard parent safe k rng = none →
      candidateOf rows cols bombs safe k (some parent) rng rngG =
        generateRandomBoard rows cols bombs safe rngG := by
  constructor
  · unfold mutateBoard
    rw [if_neg (by omega)]
    dsimp only
    obtain ⟨hb, hs⟩ := mutate_pool_lengths parent safe
    split
    · next hguard =>
      rw [hb, hs] at hguard
      simpa using hguard
    · next hguard =>
      rw [hb, hs] at hguard
      simp only [Option.isNone_some, Bool.false_eq_true, false_iff]
      exact hguard
  · intro rows cols bombs rngG hnone
    show (mutateBoard parent safe k rng).getD
      (generateRandomBoard rows cols bombs safe rngG) = _
    rw [hnone, Option.getD_none]

theorem c7_mutation_none_iff_witness :
    (1 : Nat) ≤ 1 ∧
    ((mutateBoard (createEmptyBoard 2 2) ⟨0, 0⟩ 1 (fun _ => 0)).isNone = true ↔
      bombsOutside (createEmptyBoard 2 2) ⟨0, 0⟩ < 1 ∨
        safesOutside (createEmptyBoard 2 2) ⟨0, 0⟩ < 1) ∧
    candidateOf 2 2 1 ⟨0, 0⟩ 1 (some (createEmptyBoard 2 2)) (fun _ => 0) (fun _ => 0) =
      generateRandomBoard 2 2 1 ⟨0, 0⟩ (fun _ => 0) :=
  ⟨le_refl 1,
    (c7_mutation_none_iff (createEmptyBoard 2 2) ⟨0, 0⟩ 1 (fun _ => 0) (le_refl 1)).1,
    (c7_mutation_none_iff (createEmptyBoard 2 2) ⟨0, 0⟩ 1 (fun _ => 0) (le_refl 1)).2
      2 2 1 (fun _ => 0) (Option.isNone_iff_eq_none.mp (by decide))⟩

/-! ### C8: characterisation of the subset rule -/

lemma mem_insertPos (p q : Pos) (l : List Pos) :
    p ∈ insertPos l q ↔ p ∈ l ∨ p = q := by
  unfold insertPos
  split
  · next h => exact ⟨Or.inl, fun hor => hor.elim id (fun he => he ▸ h)⟩
  · simp

lemma mem_foldl_insertPos (p : Pos) :
    ∀ (l acc : List Pos), p ∈ l.foldl insertPos acc ↔ p ∈ acc ∨ p ∈ l := by
  intro l
  induction l with
  | nil => simp
  | cons q l ih =>
    intro acc
    rw [List.foldl_cons, ih, mem_insertPos]
    simp [List.mem_cons]
    tauto

lemma mem_keysOf (p : Pos) (l : List Pos) : p ∈ keysOf l ↔ p ∈ l := by
  unfold keysOf
  rw [mem_foldl_insertPos]
  simp

lemma insertPos_nodup (l : List Pos) (q : Pos) (h : l.Nodup) :
    (insertPos l q).Nodup := by
  unfold insertPos
  split
  · exact h
  · next hq =>
    rw [List.nodup_append]
    refine ⟨h, List.nodup_singleton q, fun a ha hb => ?_⟩
    rw [List.mem_singleton] at hb
    subst hb
    exact hq ha

lemma nodup_keysOf (l : List Pos) : (keysOf l).Nodup := by
  unfold keysOf
  have hgen : ∀ acc : List Pos, acc.Nodup → (l.foldl insertPos acc).Nodup := by
    induction l with
    | nil => intro acc h; exact h
    | cons q l ih =>
      intro acc h
      rw [List.foldl_cons]
      exact ih _ (insertPos_nodup acc q h)
  exact hgen [] List.nodup_nil

lemma foldl_insertPos_of_disjoint :
    ∀ (l acc : List Pos), l.Nodup → (∀ x ∈ l, x ∉ acc) →
      l.foldl insertPos acc = acc ++ l := by
  intro l
  induction l with
  | nil => intro acc _ _; simp
  | cons q l ih =>
    intro acc hnd hdis
    rw [List.foldl_cons]
    have hq : q ∉ acc := hdis q (List.mem_cons_self q l)
    have hins : insertPos acc q = acc ++ [q] := by
      unfold insertPos
      rw [if_neg hq]
    rw [hins, ih (acc ++ [q]) (List.nodup_cons.mp hnd).2 ?_]
    · simp
    · intro x hx hmem
      rcases List.mem_append.mp hmem with hm | hm
      · exact hdis x (List.mem_cons_of_mem _ hx) hm
      · rw [List.mem_singleton] at hm
        subst hm
        exact (List.nodup_cons.mp hnd).1 hx

lemma keysOf_eq_self (l : List Pos) (h : l.Nodup) : keysOf l = l := by
  unfold keysOf
  simpa using foldl_insertPos_of_disjoint l [] h (by simp)

lemma subsetStep_mem (sets : List CSet) (i j : Nat) (acc : List Pos × List Pos)
    (p : Pos) :
    (p ∈ (subsetStep sets i acc j).1 ↔ p ∈ acc.1 ∨ stepSafe sets i j p) ∧
    (p ∈ (subsetStep sets i acc j).2 ↔ p ∈ acc.2 ∨ stepBomb sets i j p) := by
  unfold subsetStep stepSafe stepBomb
  dsimp only
  set a := sets.getD i default with hadef
  set b := sets.getD j default with hbdef
  by_cases h1 : i = j
  · rw [if_pos h1]
    simp [h1]
  rw [if_neg h1]
  by_cases h2 : b.keys.length ≤ a.keys.length
  · rw [if_pos h2]
    have hlt : ¬(a.keys.length < b.keys.length) := by omega
    simp [hlt]
  rw [if_neg h2]
  have hlt : a.keys.length < b.keys.length := by omega
  by_cases h3 : a.keys.all (fun k => decide (k ∈ b.keys)) = true
  case neg =>
    rw [if_pos (by simp [h3])]
    have hsub : ¬(∀ k ∈ a.keys, k ∈ b.keys) := by
      simpa [List.all_eq_true] using h3
    simp [hsub]
  case pos =>
    rw [if_neg (by simp [h3])]
    have hsub : ∀ k ∈ a.keys, k ∈ b.keys := by
      simpa [List.all_eq_true] using h3
    have hdiffmem : ∀ q : Pos, q ∈ b.positions.filter
        (fun q => !(decide (q ∈ a.keys))) ↔
        q ∈ b.positions ∧ q ∉ a.keys := by
      intro q
      rw [List.mem_filter]
      simp
    by_cases h4 : b.positions.filter (fun q => !(decide (q ∈ a.keys))) = []
    · rw [if_pos h4]
      have hnp : ¬(p ∈ b.positions ∧ p ∉ a.keys) := by
        intro hpair
        have hmem := (hdiffmem p).mpr hpair
        rw [h4] at hmem
        cases hmem
      simp [hnp]
    rw [if_neg h4]
    have hlen0 : 0 < (b.positions.filter (fun q => !(decide (q ∈ a.keys)))).length :=
      List.length_pos.mpr h4
    by_cases h5 : b.remaining - a.remaining < 0
    · rw [if_pos h5]
      have hr0 : ¬(b.remaining - a.remaining = 0) := by omega
      have hrL : ¬(b.remaining - a.remaining =
          ((b.positions.filter (fun q => !(decide (q ∈ a.keys)))).length : Int)) := by
        omega
      simp [hr0, hrL]
    rw [if_neg h5]
    by_cases h6 : b.remaining - a.remaining = 0
    · rw [if_pos h6]
      have hrL : ¬(b.remaining - a.remaining =
          ((b.positions.filter (fun q => !(decide (q ∈ a.keys)))).length : Int)) := by
        omega
      constructor
      · show p ∈ (b.positions.filter
            (fun q => !(decide (q ∈ a.keys)))).foldl insertPos acc.1 ↔ _
        rw [mem_foldl_insertPos, hdiffmem p]
        simp [h1, hlt, h6]
        tauto
      · show p ∈ acc.2 ↔ _
        simp [hrL]
    rw [if_neg h6]
    by_cases h7 : b.remaining - a.remaining =
        ((b.positions.filter (fun q => !(decide (q ∈ a.keys)))).length : Int)
    · rw [if_pos h7]
      constructor
      · show p ∈ acc.1 ↔ _
        simp [h6]
      · show p ∈ (b.positions.filter
            (fun q => !(decide (q ∈ a.keys)))).foldl insertPos acc.2 ↔ _
        rw [mem_foldl_insertPos, hdiffmem p]
        simp [h1, hlt, h7]
        tauto
    · rw [if_neg h7]
      simp [h6, h7]

lemma foldl_subsetStep_mem (sets : List CSet) (i : Nat) (p : Pos) :
    ∀ (js : List Nat) (acc : List Pos × List Pos),
      (p ∈ (js.foldl (subsetStep sets i) acc).1 ↔
        p ∈ acc.1 ∨ ∃ j ∈ js, stepSafe sets i j p) ∧
      (p ∈ (js.foldl (subsetStep sets i) acc).2 ↔
        p ∈ acc.2 ∨ ∃ j ∈ js, stepBomb sets i j p) := by
  intro js
  induction js with
  | nil => intro acc; simp
  | cons j js ih =>
    intro acc
    rw [List.foldl_cons]
    obtain ⟨ih1, ih2⟩ := ih (subsetStep sets i acc j)
    obtain ⟨hs1, hs2⟩ := subsetStep_mem sets i j acc p
    constructor
    · rw [ih1, hs1, List.exists_mem_cons_iff]
      exact or_assoc
    · rw [ih2, hs2, List.exists_mem_cons_iff]
      exact or_assoc

lemma subsetOuter_char (sets : List CSet) (acc : List Pos × List Pos)
    (i : Nat) (p : Pos) :
    (p ∈ (subsetOuter sets acc i).1 ↔
      p ∈ acc.1 ∨ ((sets.getD i default).keys.length ≠ 0 ∧
        ∃ j ∈ List.range sets.length, stepSafe sets i j p)) ∧
    (p ∈ (subsetOuter sets acc i).2 ↔
      p ∈ acc.2 ∨ ((sets.getD i default).keys.length ≠ 0 ∧
        ∃ j ∈ List.range sets.length, stepBomb sets i j p)) := by
  unfold subsetOuter
  by_cases hk : (sets.getD i default).keys.length = 0
  · rw [if_pos hk]
    constructor
    · refine ⟨fun h => Or.inl h, fun hor => ?_⟩
      rcases hor with h | ⟨hne, _⟩
      · exact h
      · exact absurd hk hne
    · refine ⟨fun h => Or.inl h, fun hor => ?_⟩
      rcases hor with h | ⟨hne, _⟩
      · exact h
      · exact absurd hk hne
  · rw [if_neg hk]
    obtain ⟨h1, h2⟩ := foldl_subsetStep_mem sets i p (List.range sets.length) acc
    constructor
    · rw [h1]
      exact or_congr_right (and_iff_right hk).symm
    · rw [h2]
      exact or_congr_right (and_iff_right hk).symm

lemma foldl_subsetOuter_mem (sets : List CSet) (p : Pos) :
    ∀ (il : List Nat) (acc : List Pos × List Pos),
      (p ∈ (il.foldl (subsetOuter sets) acc).1 ↔
        p ∈ acc.1 ∨ ∃ i ∈ il, (sets.getD i default).keys.length ≠ 0 ∧
          ∃ j ∈ List.range sets.length, stepSafe sets i j p) ∧
      (p ∈ (il.foldl (subsetOuter sets) acc).2 ↔
        p ∈ acc.2 ∨ ∃ i ∈ il, (sets.getD i default).keys.length ≠ 0 ∧
          ∃ j ∈ List.range sets.length, stepBomb sets i j p) := by
  intro il
  induction il with
  | nil => intro acc; simp
  | cons i il ih =>
    intro acc
    rw [List.foldl_cons]
    obtain ⟨ih1, ih2⟩ := ih (subsetOuter sets acc i)
    have houter := subsetOuter_char sets acc i p
    constructor
    · rw [ih1, houter.1, List.exists_mem_cons_iff]
      exact or_assoc
    · rw [ih2, houter.2, List.exists_mem_cons_iff]
      exact or_assoc

lemma toCSets_length (cs : List Constraint) : (toCSets cs).length = cs.length := by
  unfold toCSets
  exact List.length_map _ _

lemma sets_getD (cs : List Constraint) (i : Nat) (h : i < cs.length) :
    (toCSets cs).getD i default =
      CSet.mk (cs.getD i default).remaining (cs.getD i default).unknowns
        (keysOf (cs.getD i default).unknowns) := by
  unfold toCSets
  rw [List.getD_eq_getElem _ _ (by rw [List.length_map]; exact h), List.getElem_map,
    List.getD_eq_getElem _ _ h]

lemma exists_extra_of_keys_lt (A B : List Pos)
    (hlt : (keysOf A).length < (keysOf B).length)
    (hsub : ∀ k ∈ keysOf A, k ∈ keysOf B) :
    ∃ x ∈ B, x ∉ A := by
  by_contra hno
  push_neg at hno
  have hBsubA : keysOf B ⊆ keysOf A := fun x hx =>
    (mem_keysOf x A).mpr (hno x ((mem_keysOf x B).mp hx))
  have hle := ((nodup_keysOf B).subperm hBsubA).length_le
  omega

lemma keys_lt_of_strict (A B : List Pos) (hndA : A.Nodup)
    (hsub : ∀ x ∈ A, x ∈ B) (x : Pos) (hxB : x ∈ B) (hxA : x ∉ A) :
    A.length < B.length := by
  have hsp : A.Subperm B := hndA.subperm hsub
  rcases Nat.lt_or_ge A.length B.length with h | h
  · exact h
  · exact absurd ((hsp.perm_of_length_le h).mem_iff.mpr hxB) hxA

lemma getD_mem_constraint (l : List Constraint) (i : Nat) (hi : i < l.length) :
    l.getD i default ∈ l := by
  rw [List.getD_eq_getElem l default hi]
  exact List.getElem_mem hi

/-- C8: an empty-unknowns constraint is skipped by `applySubsetRule`
even though its unknown set is a strict subset of any non-empty one:
with `cs = [{unknowns := [], remaining := 0}, {unknowns := [(0,0)], remaining := 0}]`
the spec characterises `(0,0)` as provably safe, yet the code deduces
nothing because the outer loop skips constraints with an empty key set. -/
theorem c8_counterexample :
    SafeChar [⟨[], 0⟩, ⟨[⟨0, 0⟩], 0⟩] ⟨0, 0⟩ ∧
    (⟨0, 0⟩ : Pos) ∉ (applySubsetRule [⟨[], 0⟩, ⟨[⟨0, 0⟩], 0⟩]).1 ∧
    (⟨0, 0⟩ : Pos) ∉ (applySubsetRule [⟨[], 0⟩, ⟨[⟨0, 0⟩], 0⟩]).2 := by
  refine ⟨?_, ?_, ?_⟩
  · unfold SafeChar strictSubsetU
    decide
  · decide
  · decide

/-- C8 (amended): for constraint lists whose constraints all have
non-empty, duplicate-free unknown lists — as every constraint emitted by
the solver's board scan does — `applySubsetRule` returns as safe exactly
the cells characterised by the strict-subset rule with remaining
difference `0`, and as bombs exactly the cells of a pair whose remaining
difference equals the size of the unknown-set difference. -/
theorem c8_subset_rule_characterisation (cs : List Constraint)
    (hcs : ∀ co ∈ cs, co.unknowns ≠ [] ∧ co.unknowns.Nodup) (p : Pos) :
    (p ∈ (applySubsetRule cs).1 ↔ SafeChar cs p) ∧
    (p ∈ (applySubsetRule cs).2 ↔ BombChar cs p) := by
  have happ : applySubsetRule cs =
      (List.range (toCSets cs).length).foldl (subsetOuter (toCSets cs)) ([], []) := rfl
  obtain ⟨hc1, hc2⟩ := foldl_subsetOuter_mem (toCSets cs) p
    (List.range (toCSets cs).length) ([], [])
  have hnil1 : (p ∈ (([], []) : List Pos × List Pos).1) ↔ False := by simp
  have hnil2 : (p ∈ (([], []) : List Pos × List Pos).2) ↔ False := by simp
  have hfeq : ∀ (X Y : List Pos),
      Y.filter (fun q => !(decide (q ∈ keysOf X))) =
        Y.filter (fun q => !(decide (q ∈ X))) := by
    intro X Y
    refine List.filter_congr (fun q _ => ?_)
    have hd : decide (q ∈ keysOf X) = decide (q ∈ X) :=
      decide_eq_decide.mpr (mem_keysOf q X)
    rw [hd]
  constructor
  · rw [happ, hc1, hnil1, false_or]
    constructor
    · rintro ⟨i, hi, -, j, hj, hstep⟩
      rw [List.mem_range, toCSets_length] at hi hj
      obtain ⟨hne, hlt, hsub, hrem, hp1, hp2⟩ := hstep
      rw [sets_getD cs i hi] at hlt hsub hrem hp2
      rw [sets_getD cs j hj] at hlt hsub hrem hp1
      dsimp only at hlt hsub hrem hp1 hp2
      exact ⟨cs.getD i default, getD_mem_constraint cs i hi,
        cs.getD j default, getD_mem_constraint cs j hj,
        ⟨fun x hx => (mem_keysOf x _).mp (hsub x ((mem_keysOf x _).mpr hx)),
          exists_extra_of_keys_lt _ _ hlt hsub⟩,
        hrem, hp1, fun hmem => hp2 ((mem_keysOf p _).mpr hmem)⟩
    · rintro ⟨A, hA, B, hB, ⟨hsubU, x, hxB, hxA⟩, hrem, hpB, hpA⟩
      obtain ⟨hAne, hAnd⟩ := hcs A hA
      obtain ⟨hBne, hBnd⟩ := hcs B hB
      obtain ⟨iidx, hilen, higet⟩ := List.mem_iff_getElem.mp hA
      obtain ⟨jidx, hjlen, hjget⟩ := List.mem_iff_getElem.mp hB
      have hAgd : cs.getD iidx default = A := by
        rw [List.getD_eq_getElem _ _ hilen, higet]
      have hBgd : cs.getD jidx default = B := by
        rw [List.getD_eq_getElem _ _ hjlen, hjget]
      have hABne : A ≠ B := fun he => hxA (by rw [he]; exact hxB)
      have hne : iidx ≠ jidx := fun he => hABne (by rw [← hAgd, ← hBgd, he])
      refine ⟨iidx, List.mem_range.mpr (by rw [toCSets_length]; exact hilen), ?_,
        jidx, List.mem_range.mpr (by rw [toCSets_length]; exact hjlen), ?_⟩
      · rw [sets_getD cs iidx hilen]
        dsimp only
        rw [hAgd, keysOf_eq_self _ hAnd]
        have hpos : 0 < A.unknowns.length := List.length_pos.mpr hAne
        omega
      · unfold stepSafe
        rw [sets_getD cs iidx hilen, sets_getD cs jidx hjlen]
        dsimp only
        rw [hAgd, hBgd, keysOf_eq_self _ hAnd, keysOf_eq_self _ hBnd]
        exact ⟨hne, keys_lt_of_strict _ _ hAnd hsubU x hxB hxA, hsubU, hrem, hpB, hpA⟩
  · rw [happ, hc2, hnil2, false_or]
    constructor
    · rintro ⟨i, hi, -, j, hj, hstep⟩
      rw [List.mem_range, toCSets_length] at hi hj
      obtain ⟨hne, hlt, hsub, hrem, hp1, hp2⟩ := hstep
      rw [sets_getD cs i hi] at hlt hsub hrem hp2
      rw [sets_getD cs j hj] at hlt hsub hrem hp1
      dsimp only at hlt hsub hrem hp1 hp2
      rw [hfeq] at hrem
      exact ⟨cs.getD i default, getD_mem_constraint cs i hi,
        cs.getD j default, getD_mem_constraint cs j hj,
        ⟨fun x hx => (mem_keysOf x _).mp (hsub x ((mem_keysOf x _).mpr hx)),
          exists_extra_of_keys_lt _ _ hlt hsub⟩,
        hrem, hp1, fun hmem => hp2 ((mem_keysOf p _).mpr hmem)⟩
    · rintro ⟨A, hA, B, hB, ⟨hsubU, x, hxB, hxA⟩, hrem, hpB, hpA⟩
      obtain ⟨hAne, hAnd⟩ := hcs A hA
      obtain ⟨hBne, hBnd⟩ := hcs B hB
      obtain ⟨iidx, hilen, higet⟩ := List.mem_iff_getElem.mp hA
      obtain ⟨jidx, hjlen, hjget⟩ := List.mem_iff_getElem.mp hB
      have hAgd : cs.getD iidx default = A := by
        rw [List.getD_eq_getElem _ _ hilen, higet]
      have hBgd : cs.getD jidx default = B := by
        rw [List.getD_eq_getElem _ _ hjlen, hjget]
      have hABne : A ≠ B := fun he => hxA (by rw [he]; exact hxB)
      have hne : iidx ≠ jidx := fun he => hABne (by rw [← hAgd, ← hBgd, he])
      refine ⟨iidx, List.mem_range.mpr (by rw [toCSets_length]; exact hilen), ?_,
        jidx, List.mem_range.mpr (by rw [toCSets_length]; exact hjlen), ?_⟩
      · rw [sets_getD cs iidx hilen]
        dsimp only
        rw [hAgd, keysOf_eq_self _ hAnd]
        have hpos : 0 < A.unknowns.length := List.length_pos.mpr hAne
        omega
      · unfold stepBomb
        rw [sets_getD cs iidx hilen, sets_getD cs jidx hjlen]
        dsimp only
        rw [hAgd, hBgd, keysOf_eq_self _ hAnd, keysOf_eq_self _ hBnd]
        exact ⟨hne, keys_lt_of_strict _ _ hAnd hsubU x hxB hxA, hsubU, hrem, hpB, hpA⟩

/-- Witness for the amended C8 characterisation on the constraint pair
`A = {(0,0)}, remaining 1` and `B = {(0,0),(0,1)}, remaining 1`: the
difference cell `(0,1)` is classified safe. -/
theorem c8_subset_rule_characterisation_witness :
    (∀ co ∈ ([⟨[⟨0, 0⟩], 1⟩, ⟨[⟨0, 0⟩, ⟨0, 1⟩], 1⟩] : List Constraint),
      co.unknowns ≠ [] ∧ co.unknowns.Nodup) ∧
    (((⟨0, 1⟩ : Pos) ∈ (applySubsetRule [⟨[⟨0, 0⟩], 1⟩, ⟨[⟨0, 0⟩, ⟨0, 1⟩], 1⟩]).1 ↔
        SafeChar [⟨[⟨0, 0⟩], 1⟩, ⟨[⟨0, 0⟩, ⟨0, 1⟩], 1⟩] ⟨0, 1⟩) ∧
      ((⟨0, 1⟩ : Pos) ∈ (applySubsetRule [⟨[⟨0, 0⟩], 1⟩, ⟨[⟨0, 0⟩, ⟨0, 1⟩], 1⟩]).2 ↔
        BombChar [⟨[⟨0, 0⟩], 1⟩, ⟨[⟨0, 0⟩, ⟨0, 1⟩], 1⟩] ⟨0, 1⟩)) :=
  ⟨by decide, c8_subset_rule_characterisation _ (by decide) _⟩

/-! ### C3: solver soundness -/

lemma updG_true_elim (g : Nat → Nat → Bool) (r0 c0 : Nat) (v : Bool) (r c : Nat)
    (h : updG g r0 c0 v r c = true) : (r = r0 ∧ c = c0 ∧ v = true) ∨ g r c = true := by
  unfold updG at h
  split at h
  · rename_i he
    exact Or.inl ⟨he.1, he.2, h⟩
  · exact Or.inr h

lemma initSolverRun_sound (b : Board) : SolverSound (initSolverRun b) := by
  constructor
  · intro r c h
    simp [initSolverRun] at h
  · intro r c h
    simp [initSolverRun] at h

lemma revealLoop_sound (fuel : Nat) :
    ∀ (queue : List Pos) (st : SolverRun), SolverSound st →
      SolverSound (revealLoop fuel queue st) := by
  induction fuel with
  | zero => intro queue st h; exact h
  | succ n ih =>
    intro queue st h
    cases queue with
    | nil => exact h
    | cons cur rest =>
      simp only [revealLoop]
      split
      · exact ih _ _ h
      · split
        · exact ih _ _ h
        · rename_i hnb
          have hb : (st.board.cells cur.row cur.col).isBomb = false := by
            simpa using hnb
          have hst' : SolverSound { st with
              revealed := updG st.revealed cur.row cur.col true
              revealedCount := st.revealedCount + 1 } := by
            refine ⟨fun r c hrc => ?_, fun r c hfc => h.2 r c hfc⟩
            rcases updG_true_elim st.revealed cur.row cur.col true r c hrc with
              ⟨h1, h2, -⟩ | hg
            · subst h1
              subst h2
              exact hb
            · exact h.1 r c hg
          split
          · exact ih _ _ hst'
          · exact ih _ _ hst'

lemma revealAt_sound (p : Pos) (st : SolverRun) (h : SolverSound st) :
    SolverSound (revealAt p st) := by
  unfold revealAt
  split
  · exact h
  · split
    · exact h
    · exact revealLoop_sound _ _ _ h

lemma applyFlags_sound (l : List Pos) :
    ∀ s : SolverRun × Bool, SolverSound s.1 →
      (∀ p ∈ l, (s.1.board.cells p.row p.col).isBomb = true) →
      SolverSound (applyFlags l s).1 := by
  induction l with
  | nil => intro s h _; exact h
  | cons p rest ih =>
    intro s h hl
    show SolverSound (applyFlags rest _).1
    refine ih _ ?_ ?_
    · dsimp only
      split
      · exact h
      · refine ⟨fun r c hrc => h.1 r c hrc, fun r c hfc => ?_⟩
        rcases updG_true_elim s.1.flagged p.row p.col true r c hfc with
          ⟨h1, h2, -⟩ | hg
        · subst h1
          subst h2
          exact hl p (List.mem_cons_self p rest)
        · exact h.2 r c hg
    · intro q hq
      dsimp only
      split
      · exact hl q (List.mem_cons_of_mem p hq)
      · exact hl q (List.mem_cons_of_mem p hq)

lemma applyReveals_sound (l : List Pos) :
    ∀ s : SolverRun × Bool, SolverSound s.1 → SolverSound (applyReveals l s).1 := by
  induction l with
  | nil => intro s h; exact h
  | cons p rest ih =>
    intro s h
    show SolverSound (applyReveals rest _).1
    refine ih _ ?_
    dsimp only
    exact revealAt_sound p s.1 h

lemma nbr_inj (rows cols r c : Nat) (d d' : Int × Int)
    (h : nbrIn rows cols r c d = true) (h' : nbrIn rows cols r c d' = true)
    (he : nbr r c d = nbr r c d') : d = d' := by
  obtain ⟨dx, dy⟩ := d
  obtain ⟨dx', dy'⟩ := d'
  unfold nbrIn inBounds at h h'
  simp only [Bool.and_eq_true, decide_eq_true_eq] at h h'
  unfold nbr at he
  rw [Pos.eq_iff] at he
  obtain ⟨h1, h2⟩ := he
  dsimp only at h1 h2
  obtain ⟨⟨⟨ha1, ha2⟩, ha3⟩, ha4⟩ := h
  obtain ⟨⟨⟨hb1, hb2⟩, hb3⟩, hb4⟩ := h'
  have e1 : dx = dx' := by omega
  have e2 : dy = dy' := by omega
  rw [e1, e2]

lemma scanCell_fold_snd (b : Board) (rev flg : Nat → Nat → Bool) (r c : Nat) :
    ∀ (ds : List (Int × Int)) (acc : Nat × List Pos),
      (ds.foldl (fun acc d =>
        if nbrIn b.rows b.cols r c d then
          let p := nbr r c d
          if flg p.row p.col then (acc.1 + 1, acc.2)
          else if !(rev p.row p.col) then (acc.1, acc.2 ++ [p])
          else acc
        else acc) acc).2 =
      acc.2 ++ ds.filterMap (fun d =>
        if nbrIn b.rows b.cols r c d && !(flg (nbr r c d).row (nbr r c d).col) &&
            !(rev (nbr r c d).row (nbr r c d).col) then some (nbr r c d)
        else none) := by
  intro ds
  induction ds with
  | nil => intro acc; simp
  | cons d ds ih =>
    intro acc
    rw [List.foldl_cons, ih, List.filterMap_cons]
    by_cases h1 : nbrIn b.rows b.cols r c d = true
    · by_cases h2 : flg (nbr r c d).row (nbr r c d).col = true
      · simp [h1, h2]
      · by_cases h3 : rev (nbr r c d).row (nbr r c d).col = true
        · simp [h1, h2, h3]
        · simp [h1, h2, h3]
    · simp [h1]

lemma scanCell_nodup (b : Board) (rev flg : Nat → Nat → Bool) (r c : Nat) :
    (scanCell b rev flg r c).2.Nodup := by
  have h := scanCell_fold_snd b rev flg r c DIRECTIONS (0, [])
  unfold scanCell
  rw [h]
  simp only [List.nil_append]
  refine List.Nodup.filterMap ?_ (by decide)
  intro a a' q hqa hqa'
  rw [Option.mem_def] at hqa hqa'
  split at hqa
  case isTrue hca =>
    split at hqa'
    case isTrue hca' =>
      simp only [Bool.and_eq_true] at hca hca'
      have he : nbr r c a = nbr r c a' := by
        have e1 : some (nbr r c a) = some q := hqa
        have e2 : some (nbr r c a') = some q := hqa'
        rw [← e2] at e1
        exact Option.some.inj e1
      exact nbr_inj b.rows b.cols r c a a' hca.1.1 hca'.1.1 he
    case isFalse hno => exact Option.noConfusion hqa'
  case isFalse hno => exact Option.noConfusion hqa

lemma scanCell_fold_count (b : Board) (rev flg : Nat → Nat → Bool) (r c : Nat)
    (hrev : ∀ p : Pos, rev p.row p.col = true → (b.cells p.row p.col).isBomb = false)
    (hflg : ∀ p : Pos, flg p.row p.col = true → (b.cells p.row p.col).isBomb = true) :
    ∀ (ds : List (Int × Int)) (acc : Nat × List Pos),
      (ds.foldl (fun acc d =>
        if nbrIn b.rows b.cols r c d then
          let p := nbr r c d
          if flg p.row p.col then (acc.1 + 1, acc.2)
          else if !(rev p.row p.col) then (acc.1, acc.2 ++ [p])
          else acc
        else acc) acc).1 +
        ((ds.foldl (fun acc d =>
          if nbrIn b.rows b.cols r c d then
            let p := nbr r c d
            if flg p.row p.col then (acc.1 + 1, acc.2)
            else if !(rev p.row p.col) then (acc.1, acc.2 ++ [p])
            else acc
          else acc) acc).2.countP (fun p => (b.cells p.row p.col).isBomb)) =
      (ds.filter (fun d => nbrIn b.rows b.cols r c d &&
        (b.cells (nbr r c d).row (nbr r c d).col).isBomb)).length +
        acc.1 + acc.2.countP (fun p => (b.cells p.row p.col).isBomb) := by
  intro ds
  induction ds with
  | nil => intro acc; simp
  | cons d ds ih =>
    intro acc
    rw [List.foldl_cons, ih, List.filter_cons]
    by_cases h1 : nbrIn b.rows b.cols r c d = true
    · by_cases h2 : flg (nbr r c d).row (nbr r c d).col = true
      · have hb := hflg (nbr r c d) h2
        simp [h1, h2, hb]
        omega
      · by_cases h3 : rev (nbr r c d).row (nbr r c d).col = true
        · have hb := hrev (nbr r c d) h3
          simp [h1, h2, h3, hb]
        · by_cases hb : (b.cells (nbr r c d).row (nbr r c d).col).isBomb = true
          · simp [h1, h2, h3, hb, List.countP_append, List.countP_cons]
            omega
          · simp [h1, h2, h3, hb, List.countP_append, List.countP_cons]
    · simp [h1]

lemma scanCell_count (b : Board) (rev flg : Nat → Nat → Bool) (r c : Nat)
    (hrev : ∀ p : Pos, rev p.row p.col = true → (b.cells p.row p.col).isBomb = false)
    (hflg : ∀ p : Pos, flg p.row p.col = true → (b.cells p.row p.col).isBomb = true) :
    bombNeighborCount b r c =
      (scanCell b rev flg r c).1 +
        (scanCell b rev flg r c).2.countP (fun p => (b.cells p.row p.col).isBomb) := by
  have h := scanCell_fold_count b rev flg r c hrev hflg DIRECTIONS (0, [])
  unfold scanCell bombNeighborCount
  simpa using h.symm

lemma scanRes1_toFlag (res : ScanResult) (unknowns : List Pos) (remaining : Int) :
    (scanRes1 res unknowns remaining).toFlag = res.toFlag := by
  unfold scanRes1
  split <;> rfl

lemma scanRes1_constraints_mem (res : ScanResult) (unknowns : List Pos)
    (remaining : Int) (co : Constraint)
    (h : co ∈ (scanRes1 res unknowns remaining).constraints) :
    co ∈ res.constraints ∨ co = ⟨unknowns, remaining⟩ := by
  unfold scanRes1 at h
  split at h
  · rcases List.mem_append.mp h with h | h
    · exact Or.inl h
    · exact Or.inr (List.mem_singleton.mp h)
  · exact Or.inl h

lemma scanStep_sound (st : SolverRun) (hadj : adjacencyCorrect st.board)
    (hsound : SolverSound st) (res : ScanResult) (p : Pos)
    (hp1 : p.row < st.board.rows) (hp2 : p.col < st.board.cols)
    (hf : ∀ q ∈ res.toFlag, (st.board.cells q.row q.col).isBomb = true)
    (hc : ∀ co ∈ res.constraints, ConstraintSem st.board co) :
    (∀ q ∈ (scanStep st res p).toFlag, (st.board.cells q.row q.col).isBomb = true) ∧
    (∀ co ∈ (scanStep st res p).constraints, ConstraintSem st.board co) := by
  unfold scanStep
  split
  · exact ⟨hf, hc⟩
  · rename_i hrevb
    have hrev : st.revealed p.row p.col = true := by
      simpa using hrevb
    dsimp only
    split
    · exact ⟨hf, hc⟩
    · rename_i hne
      have hcell : (st.board.cells p.row p.col).isBomb = false :=
        hsound.1 p.row p.col hrev
      have hadjp : (st.board.cells p.row p.col).adjacentBombCount =
          bombNeighborCount st.board p.row p.col := hadj p.row hp1 p.col hp2 hcell
      have hcount := scanCell_count st.board st.revealed st.flagged p.row p.col
        (fun q hq => hsound.1 q.row q.col hq) (fun q hq => hsound.2 q.row q.col hq)
      set U := (scanCell st.board st.revealed st.flagged p.row p.col).2 with hU
      set F := (scanCell st.board st.revealed st.flagged p.row p.col).1 with hF
      set RM := ((st.board.cells p.row p.col).adjacentBombCount : Int) - (F : Int)
        with hRM
      have hsem : ConstraintSem st.board ⟨U, RM⟩ := by
        refine ⟨hne, ?_, ?_⟩
        · rw [hU]
          exact scanCell_nodup st.board st.revealed st.flagged p.row p.col
        · dsimp only
          rw [hRM, hadjp, hcount]
          push_cast
          omega
      have hif : ∀ q ∈ (scanRes1 res U RM).toFlag,
          (st.board.cells q.row q.col).isBomb = true := by
        rw [scanRes1_toFlag]
        exact hf
      have hic : ∀ co ∈ (scanRes1 res U RM).constraints,
          ConstraintSem st.board co := by
        intro co hco
        rcases scanRes1_constraints_mem res U RM co hco with h | h
        · exact hc co h
        · rw [h]
          exact hsem
      split
      · exact ⟨hif, hic⟩
      · split
        · rename_i hexh
          refine ⟨?_, hic⟩
          intro q hq
          rcases List.mem_append.mp hq with hmem | hmem
          · exact hif q hmem
          · have hlen : U.countP (fun p => (st.board.cells p.row p.col).isBomb) =
                U.length := by
              omega
            exact List.countP_eq_length.mp hlen q hmem
        · exact ⟨hif, hic⟩

lemma scanBoard_fold_sound (st : SolverRun) (hadj : adjacencyCorrect st.board)
    (hsound : SolverSound st) :
    ∀ (ps : List Pos) (res : ScanResult),
      (∀ p ∈ ps, p.row < st.board.rows ∧ p.col < st.board.cols) →
      (∀ q ∈ res.toFlag, (st.board.cells q.row q.col).isBomb = true) →
      (∀ co ∈ res.constraints, ConstraintSem st.board co) →
      (∀ q ∈ (ps.foldl (scanStep st) res).toFlag,
        (st.board.cells q.row q.col).isBomb = true) ∧
      (∀ co ∈ (ps.foldl (scanStep st) res).constraints, ConstraintSem st.board co) := by
  intro ps
  induction ps with
  | nil => intro res hps hf hc; exact ⟨hf, hc⟩
  | cons p ps ih =>
    intro res hps hf hc
    rw [List.foldl_cons]
    obtain ⟨h1, h2⟩ := scanStep_sound st hadj hsound res p
      (hps p (List.mem_cons_self p ps)).1 (hps p (List.mem_cons_self p ps)).2 hf hc
    exact ih _ (fun q hq => hps q (List.mem_cons_of_mem p hq)) h1 h2

lemma scanBoard_sound (st : SolverRun) (hadj : adjacencyCorrect st.board)
    (hsound : SolverSound st) :
    (∀ q ∈ (scanBoard st).toFlag, (st.board.cells q.row q.col).isBomb = true) ∧
    (∀ co ∈ (scanBoard st).constraints, ConstraintSem st.board co) := by
  unfold scanBoard
  exact scanBoard_fold_sound st hadj hsound _ _
    (fun p hp => mem_allPositions.mp hp)
    (fun q hq => absurd hq (List.not_mem_nil q))
    (fun co hco => absurd hco (List.not_mem_nil co))

lemma filter_keysOf_eq (X Y : List Pos) :
    Y.filter (fun q => !(decide (q ∈ keysOf X))) =
      Y.filter (fun q => !(decide (q ∈ X))) := by
  refine List.filter_congr (fun q _ => ?_)
  have hd : decide (q ∈ keysOf X) = decide (q ∈ X) :=
    decide_eq_decide.mpr (mem_keysOf q X)
  rw [hd]

lemma countP_subset_split (b : Board) (A B : List Pos) (hndA : A.Nodup)
    (hndB : B.Nodup) (hsub : ∀ x ∈ A, x ∈ B) :
    B.countP (fun q => (b.cells q.row q.col).isBomb) =
      A.countP (fun q => (b.cells q.row q.col).isBomb) +
        (B.filter (fun q => !(decide (q ∈ A)))).countP
          (fun q => (b.cells q.row q.col).isBomb) := by
  have hpart := List.countP_eq_countP_filter_add B
    (fun q => (b.cells q.row q.col).isBomb) (fun q => decide (q ∈ A))
  have hperm : (B.filter (fun q => decide (q ∈ A))).Perm A := by
    refine (List.perm_ext_iff_of_nodup (hndB.filter _) hndA).mpr ?_
    intro x
    simp only [List.mem_filter, decide_eq_true_eq]
    exact ⟨fun h => h.2, fun h => ⟨hsub x h, h⟩⟩
  rw [hpart, hperm.countP_eq]

lemma applySubsetRule_sound (b : Board) (cs : List Constraint)
    (hcs : ∀ co ∈ cs, ConstraintSem b co) :
    (∀ p ∈ (applySubsetRule cs).1, (b.cells p.row p.col).isBomb = false) ∧
    (∀ p ∈ (applySubsetRule cs).2, (b.cells p.row p.col).isBomb = true) := by
  have happ : applySubsetRule cs =
      (List.range (toCSets cs).length).foldl (subsetOuter (toCSets cs)) ([], []) := rfl
  constructor
  · intro p hp
    rw [happ] at hp
    rw [(foldl_subsetOuter_mem (toCSets cs) p (List.range (toCSets cs).length)
      ([], [])).1] at hp
    rcases hp with hp | ⟨i, hi, -, j, hj, hstep⟩
    · exact absurd hp (List.not_mem_nil p)
    · rw [List.mem_range, toCSets_length] at hi hj
      obtain ⟨hne, hlt, hsub, hrem, hp1, hp2⟩ := hstep
      rw [sets_getD cs i hi] at hlt hsub hrem hp2
      rw [sets_getD cs j hj] at hlt hsub hrem hp1
      dsimp only at hlt hsub hrem hp1 hp2
      obtain ⟨hAne, hAnd, hAcnt⟩ := hcs _ (getD_mem_constraint cs i hi)
      obtain ⟨hBne, hBnd, hBcnt⟩ := hcs _ (getD_mem_constraint cs j hj)
      have hsub' : ∀ x ∈ (cs.getD i default).unknowns,
          x ∈ (cs.getD j default).unknowns :=
        fun x hx => (mem_keysOf x _).mp (hsub x ((mem_keysOf x _).mpr hx))
      have hpA : p ∉ (cs.getD i default).unknowns :=
        fun hmem => hp2 ((mem_keysOf p _).mpr hmem)
      have hsplit := countP_subset_split b (cs.getD i default).unknowns
        (cs.getD j default).unknowns hAnd hBnd hsub'
      rw [hAcnt, hBcnt] at hrem
      have hzero : ((cs.getD j default).unknowns.filter
          (fun q => !(decide (q ∈ (cs.getD i default).unknowns)))).countP
            (fun q => (b.cells q.row q.col).isBomb) = 0 := by omega
      have hpdiff : p ∈ (cs.getD j default).unknowns.filter
          (fun q => !(decide (q ∈ (cs.getD i default).unknowns))) := by
        rw [List.mem_filter]
        exact ⟨hp1, by simpa using hpA⟩
      have hnb := List.countP_eq_zero.mp hzero p hpdiff
      simpa using hnb
  · intro p hp
    rw [happ] at hp
    rw [(foldl_subsetOuter_mem (toCSets cs) p (List.range (toCSets cs).length)
      ([], [])).2] at hp
    rcases hp with hp | ⟨i, hi, -, j, hj, hstep⟩
    · exact absurd hp (List.not_mem_nil p)
    · rw [List.mem_range, toCSets_length] at hi hj
      obtain ⟨hne, hlt, hsub, hrem, hp1, hp2⟩ := hstep
      rw [sets_getD cs i hi] at hlt hsub hrem hp2
      rw [sets_getD cs j hj] at hlt hsub hrem hp1
      dsimp only at hlt hsub hrem hp1 hp2
      obtain ⟨hAne, hAnd, hAcnt⟩ := hcs _ (getD_mem_constraint cs i hi)
      obtain ⟨hBne, hBnd, hBcnt⟩ := hcs _ (getD_mem_constraint cs j hj)
      have hsub' : ∀ x ∈ (cs.getD i default).unknowns,
          x ∈ (cs.getD j default).unknowns :=
        fun x hx => (mem_keysOf x _).mp (hsub x ((mem_keysOf x _).mpr hx))
      have hpA : p ∉ (cs.getD i default).unknowns :=
        fun hmem => hp2 ((mem_keysOf p _).mpr hmem)
      have hsplit := countP_subset_split b (cs.getD i default).unknowns
        (cs.getD j default).unknowns hAnd hBnd hsub'
      rw [filter_keysOf_eq] at hrem
      rw [hAcnt, hBcnt] at hrem
      have hle := List.countP_le_length
        (fun q => (b.cells q.row q.col).isBomb)
        (l := (cs.getD j default).unknowns.filter
          (fun q => !(decide (q ∈ (cs.getD i default).unknowns))))
      have hfull : ((cs.getD j default).unknowns.filter
          (fun q => !(decide (q ∈ (cs.getD i default).unknowns)))).countP
            (fun q => (b.cells q.row q.col).isBomb) =
          ((cs.getD j default).unknowns.filter
            (fun q => !(decide (q ∈ (cs.getD i default).unknowns)))).length := by
        omega
      have hpdiff : p ∈ (cs.getD j default).unknowns.filter
          (fun q => !(decide (q ∈ (cs.getD i default).unknowns))) := by
        rw [List.mem_filter]
        exact ⟨hp1, by simpa using hpA⟩
      exact List.countP_eq_length.mp hfull p hpdiff

lemma solverRound_sound (st : SolverRun) (hadj : adjacencyCorrect st.board)
    (hsound : SolverSound st) : SolverSound (solverRound st).1 := by
  obtain ⟨hflagS, hconS⟩ := scanBoard_sound st hadj hsound
  refine applyReveals_sound _ _ (applyFlags_sound _ _ hsound ?_)
  intro q hq
  split at hq
  · rcases List.mem_append.mp hq with h | h
    · exact hflagS q h
    · exact (applySubsetRule_sound st.board (scanBoard st).constraints hconS).2 q h
  · exact hflagS q hq

lemma solverLoop_sound (fuel : Nat) :
    ∀ st : SolverRun, adjacencyCorrect st.board → SolverSound st →
      SolverSound (solverLoop fuel st) := by
  induction fuel with
  | zero => intro st _ h; exact h
  | succ n ih =>
    intro st hadj h
    show SolverSound
      (if (solverRound st).2 then solverLoop n (solverRound st).1 else (solverRound st).1)
    split
    · refine ih _ ?_ (solverRound_sound st hadj h)
      rw [solverRound_board]
      exact hadj
    · exact solverRound_sound st hadj h

/-- C3: on a board with correct adjacency counts and a non-bomb safe
cell, the deduction solver is sound at every point of its run — after
any number of rounds the shadow matrices only mark non-bombs as
revealed and bombs as flagged — and hence also in its final state. -/
theorem c3_solver_soundness (b : Board) (safe : Pos)
    (hadj : adjacencyCorrect b)
    (hsafe : (b.cells safe.row safe.col).isBomb = false) :
    (∀ n : Nat, SolverSound (solverLoop n (revealAt safe (initSolverRun b)))) ∧
    (∀ r c, (runSolverState b safe).revealed r c = true →
      (b.cells r c).isBomb = false) ∧
    (∀ r c, (runSolverState b safe).flagged r c = true →
      (b.cells r c).isBomb = true) := by
  have hinit : SolverSound (revealAt safe (initSolverRun b)) :=
    revealAt_sound safe (initSolverRun b) (initSolverRun_sound b)
  have hadj' : adjacencyCorrect (revealAt safe (initSolverRun b)).board := by
    rw [revealAt_board]
    exact hadj
  have hall : ∀ n, SolverSound (solverLoop n (revealAt safe (initSolverRun b))) :=
    fun n => solverLoop_sound n _ hadj' hinit
  have hb2 : (solverLoop (solverFuel b) (revealAt safe (initSolverRun b))).board = b := by
    rw [solverLoop_board, revealAt_board]
    rfl
  refine ⟨hall, ?_, ?_⟩
  · intro r c h
    have h2 := (hall (solverFuel b)).1 r c h
    rwa [hb2] at h2
  · intro r c h
    have h2 := (hall (solverFuel b)).2 r c h
    rwa [hb2] at h2

/-- Witness for C3 on the 5×5 single-bomb board with the bomb at the
corner and the seed at the centre. -/
theorem c3_solver_soundness_witness :
    adjacencyCorrect (singleBomb5 ⟨0, 0⟩) ∧
    ((singleBomb5 ⟨0, 0⟩).cells 2 2).isBomb = false ∧
    (∀ r c, (runSolverState (singleBomb5 ⟨0, 0⟩) ⟨2, 2⟩).flagged r c = true →
      ((singleBomb5 ⟨0, 0⟩).cells r c).isBomb = true) :=
  ⟨by decide, by decide,
    (c3_solver_soundness (singleBomb5 ⟨0, 0⟩) ⟨2, 2⟩ (by decide) (by decide)).2.2⟩

end Minesweeper
